import Mathlib

/-!
# ticTacGo: the board model and the minimax search of `main.go`

The Go program keeps a board as `[][]BoardSpace` (a slice of row slices of
machine integers), mutates it in place while searching and restores it
afterwards.  The embedding below follows the source function by function:

* a board is a list of rows, a row a list of integers; rows are assumed not to
  alias each other (as is the case for every board built by `toBoard`);
* an index expression `board[i][j]` that is out of range panics in Go: reads
  and writes return `Option`, `none` standing for the panic;
* in-place mutation is explicit state passing: `minimax` returns the board it
  leaves behind together with its score, `nextMove` returns the board it
  leaves behind;
* the recursion of `minimax` is driven by a fuel counter (`none` when the fuel
  runs out); the theorems show that fuel above the number of blank cells
  always suffices;
* `int` is 64 bit; only comparisons are performed on scores, so scores are
  integers and `math.MinInt`, `math.MaxInt` are the two constants below;
* `strings.ToUpper` is the one library function the conversions rely on; it is
  modelled by upper-casing the basic Latin letters of a string.

* `moveReq` is modelled from the point where the request body has been bound:
  it answers status 400 or a `Response`; the HTTP layer itself is not modelled.

The file gives the embedding of the source first, then the vocabulary of the
specification, then the supporting lemmas (reads and writes, the terminal
tests, the loops, the reference value `V`, the scan of `nextMove`, the text
conversions, totality, winning moves, colour symmetry, a certified bound on
`V` and the opening move) and finally the theorems of the claims.
-/

namespace TicTacGo

/-- Go: `type BoardSpace int`. -/
abbrev BoardSpace := Int

/-- Go: `X BoardSpace = -1`. -/
def X : BoardSpace := -1

/-- Go: `Blank BoardSpace = 0`. -/
def Blank : BoardSpace := 0

/-- Go: `O BoardSpace = 1`. -/
def O : BoardSpace := 1

/-- Go: `math.MinInt` on a 64 bit platform. -/
def MinInt : Int := -9223372036854775808

/-- Go: `math.MaxInt` on a 64 bit platform. -/
def MaxInt : Int := 9223372036854775807

/-- Go: `[][]BoardSpace`. -/
abbrev Board := List (List BoardSpace)

/-- Go: the read `board[i][j]`; `none` is the index-out-of-range panic. -/
def index {α : Type} (board : List (List α)) (i j : Nat) : Option α :=
  match board[i]? with
  | none => none
  | some row => row[j]?

/-- Go: the write `board[i][j] = v`; `none` is the index-out-of-range panic. -/
def assign {α : Type} (board : List (List α)) (i j : Nat) (v : α) : Option (List (List α)) :=
  match board[i]? with
  | none => none
  | some row => if j < row.length then some (board.set i (row.set j v)) else none

/-- Go: a condition `board[p] == board[q] && board[q] == board[r] && board[p] != Blank`
of `checkWin`, with the short-circuit evaluation order of `&&`. -/
def lineCond (board : Board) (p q r : Nat × Nat) : Option Bool := do
  let a ← index board p.1 p.2
  let b ← index board q.1 q.2
  if a != b then return false
  let b ← index board q.1 q.2
  let c ← index board r.1 r.2
  if b != c then return false
  let a ← index board p.1 p.2
  return a != Blank

/-- Go: the `for i` loop of `checkWin` (lines 20-27) over the remaining values of `i`;
the inner `some v` is an early `return v`, the inner `none` is falling out of the loop. -/
def checkWinLoop (board : Board) : List Nat → Option (Option BoardSpace)
  | [] => some none
  | i :: rest => do
    if (← lineCond board (i, 0) (i, 1) (i, 2)) then
      return some (← index board i 0)
    if (← lineCond board (0, i) (1, i) (2, i)) then
      return some (← index board 0 i)
    checkWinLoop board rest

/-- Go: `func checkWin(board [][]BoardSpace) BoardSpace`. -/
def checkWin (board : Board) : Option BoardSpace := do
  match (← checkWinLoop board (List.range 3)) with
  | some v => return v
  | none =>
    if (← lineCond board (0, 0) (1, 1) (2, 2)) then
      return (← index board 0 0)
    if (← lineCond board (2, 0) (1, 1) (0, 2)) then
      return (← index board 2 0)
    return Blank

/-- Go: `func checkFull(board [][]BoardSpace) bool`; the first `Blank` cell met in
row-major order ends both loops with `false`. -/
def checkFull (board : Board) : Option Bool :=
  (List.range 3).allM fun i =>
    (List.range 3).allM fun j => do
      return (← index board i j) != Blank

/-- Go: the body of the inner loop of the `maximizer` branch of `minimax` (lines 64-71),
given the recursive call `rec`. -/
def maxStep (rec : Board → Option (Board × Int)) (i j : Nat) (st : Board × Int) :
    Option (Board × Int) := do
  let (board, best) := st
  if (← index board i j) == Blank then
    let board ← assign board i j O
    let (board, res) ← rec board
    let best := if res > best then res else best
    let board ← assign board i j Blank
    return (board, best)
  else
    return (board, best)

/-- Go: the body of the inner loop of the minimizer branch of `minimax` (lines 79-86),
given the recursive call `rec`. -/
def minStep (rec : Board → Option (Board × Int)) (i j : Nat) (st : Board × Int) :
    Option (Board × Int) := do
  let (board, best) := st
  if (← index board i j) == Blank then
    let board ← assign board i j X
    let (board, res) ← rec board
    let best := if res < best then res else best
    let board ← assign board i j Blank
    return (board, best)
  else
    return (board, best)

/-- Go: the nested loops `for i := 0; i < 3; i++ { for j := 0; j < 3; j++ { body } }`
threading a state through the body. -/
def forCells {σ : Type} (body : Nat → Nat → σ → Option σ) (init : σ) : Option σ :=
  (List.range 3).foldlM (fun st i => (List.range 3).foldlM (fun st j => body i j st) st) init

/-- Go: `func minimax(board [][]BoardSpace, maximizer bool) int`, returning the board
left behind and the score; `fuel` bounds the recursion depth. -/
def minimax : Nat → Board → Bool → Option (Board × Int)
  | 0, _, _ => none
  | fuel + 1, board, maximizer => do
    let winner ← checkWin board
    if winner != 0 then
      return (board, winner)
    if (← checkFull board) then
      return (board, 0)
    if maximizer then
      forCells (maxStep (fun b => minimax fuel b false)) (board, MinInt)
    else
      forCells (minStep (fun b => minimax fuel b true)) (board, MaxInt)

/-- The state of the loops of `nextMove`: the board, `bestScore`, `bestRow`, `bestCol`. -/
structure MoveState where
  board : Board
  bestScore : Int
  bestRow : Nat
  bestCol : Nat
deriving DecidableEq, Repr

/-- Go: the body of the inner loop of `nextMove` (lines 116-127). -/
def moveStep (fuel : Nat) (player : BoardSpace) (maximizer : Bool) (i j : Nat)
    (st : MoveState) : Option MoveState := do
  if (← index st.board i j) == Blank then
    let board ← assign st.board i j player
    let (board, score) ← minimax fuel board (!maximizer)
    let st :=
      if (player == X && score < st.bestScore) || (player == O && score > st.bestScore) then
        { st with bestScore := score, bestRow := i, bestCol := j }
      else st
    let board ← assign board i j Blank
    return { st with board := board }
  else
    return st

/-- Go: `func nextMove(board [][]BoardSpace, player BoardSpace)`, returning the board
left behind; `fuel` bounds the recursion depth of the calls of `minimax`. -/
def nextMove (fuel : Nat) (board : Board) (player : BoardSpace) : Option Board := do
  if player == Blank then
    return board
  if (← checkWin board) != Blank then
    return board
  if (← checkFull board) then
    return board
  let (bestScore, maximizer) :=
    if player == X then (MaxInt, false) else (MinInt, true)
  let st ← forCells (moveStep fuel player maximizer)
    { board := board, bestScore := bestScore, bestRow := 0, bestCol := 0 }
  assign st.board st.bestRow st.bestCol player

/-- Go: `strings.ToUpper` of the standard library, on the characters that matter here:
it maps each letter to its upper case, and `x`, `o` are the only characters other than
`X`, `O` themselves that it maps to `X`, `O`. -/
def toUpper (s : String) : String := String.mk (s.data.map Char.toUpper)

/-- Go: the `switch strings.ToUpper(boardStrings[i][j])` of `toBoard` (lines 149-157). -/
def toSpace (s : String) : BoardSpace :=
  let u := toUpper s
  if u = "X" then X else if u = "O" then O else Blank

/-- Go: the `switch board[i][j]` of `toBoardStrings` (lines 171-179). -/
def toCode (v : BoardSpace) : String :=
  if v = X then "X" else if v = O then "O" else "_"

/-- Go: `func toBoard(boardStrings [][]string) [][]BoardSpace`. -/
def toBoard (boardStrings : List (List String)) : Option Board :=
  forCells (fun i j (board : Board) => do
      let space := toSpace (← index boardStrings i j)
      assign board i j space)
    [[Blank, Blank, Blank], [Blank, Blank, Blank], [Blank, Blank, Blank]]

/-- Go: `func toBoardStrings(board [][]BoardSpace) [][]string`. -/
def toBoardStrings (board : Board) : Option (List (List String)) :=
  forCells (fun i j (boardStrings : List (List String)) => do
      let space := toCode (← index board i j)
      assign boardStrings i j space)
    [["_", "_", "_"], ["_", "_", "_"], ["_", "_", "_"]]

/-- Go: `func checkDims(board [][]string) bool`. -/
def checkDims (board : List (List String)) : Option Bool := do
  if board.length != 3 then
    return false
  (List.range 3).allM fun i => do
    let row ← board[i]?
    return !(row.length != 3)

/-- Go: `type Response struct`. -/
structure Response where
  board : List (List String)
  won : String
  full : Bool
deriving DecidableEq, Repr

/-- What `moveReq` answers once the request body is bound: status 400 without a body, or
status 200 with a `Response`. -/
inductive Reply where
  | badRequest : Reply
  | ok : Response → Reply
deriving DecidableEq, Repr

/-- Go: `func moveReq(c *gin.Context, player BoardSpace)` after `c.BindJSON` has succeeded
with `req.Board = reqBoard` (lines 209-227); its `switch checkWin(board)` is the
three-way switch of `toCode`. -/
def moveReq (fuel : Nat) (reqBoard : List (List String)) (player : BoardSpace) :
    Option Reply := do
  if !(← checkDims reqBoard) then
    return Reply.badRequest
  let board ← toBoard reqBoard
  let board ← nextMove fuel board player
  let won := toCode (← checkWin board)
  let full ← checkFull board
  return Reply.ok { board := (← toBoardStrings board), won := won, full := full }

/-! ## Vocabulary of the specification -/

/-- A grid of exactly 3 rows of exactly 3 entries. -/
def Is3x3 {α : Type} (b : List (List α)) : Prop :=
  b.length = 3 ∧ ∀ r ∈ b, r.length = 3

instance {α : Type} (b : List (List α)) : Decidable (Is3x3 b) := by
  unfold Is3x3; infer_instance

/-- Every cell of the board is one of `X`, `Blank`, `O`. -/
def OverMarks (b : Board) : Prop :=
  ∀ r ∈ b, ∀ v ∈ r, v = X ∨ v = Blank ∨ v = O

instance (b : Board) : Decidable (OverMarks b) := by
  unfold OverMarks; infer_instance

/-- The nine cells `(row, column)` in row-major order, the order in which the nested
loops `for i { for j { ... } }` visit them. -/
def allCells : List (Nat × Nat) :=
  [(0, 0), (0, 1), (0, 2), (1, 0), (1, 1), (1, 2), (2, 0), (2, 1), (2, 2)]

/-- The eight lines of the board: three rows, three columns, two diagonals. -/
def allLines : List ((Nat × Nat) × (Nat × Nat) × (Nat × Nat)) :=
  [((0, 0), (0, 1), (0, 2)), ((1, 0), (1, 1), (1, 2)), ((2, 0), (2, 1), (2, 2)),
   ((0, 0), (1, 0), (2, 0)), ((0, 1), (1, 1), (2, 1)), ((0, 2), (1, 2), (2, 2)),
   ((0, 0), (1, 1), (2, 2)), ((2, 0), (1, 1), (0, 2))]

/-- The three cells of line `l` of `b` all hold the mark `v`. -/
def LineHolds (b : Board) (l : (Nat × Nat) × (Nat × Nat) × (Nat × Nat)) (v : BoardSpace) :
    Prop :=
  index b l.1.1 l.1.2 = some v ∧ index b l.2.1.1 l.2.1.2 = some v ∧
    index b l.2.2.1 l.2.2.2 = some v

instance (b : Board) (l : (Nat × Nat) × (Nat × Nat) × (Nat × Nat)) (v : BoardSpace) :
    Decidable (LineHolds b l v) := by
  unfold LineHolds; infer_instance

/-- The cells of `b` that hold `Blank`, in row-major order. -/
def blankCells (b : Board) : List (Nat × Nat) :=
  allCells.filter fun c => index b c.1 c.2 = some Blank

/-- The number of `Blank` cells of `b`. -/
def numBlank (b : Board) : Nat := (blankCells b).length

/-- The board `b` with `v` written at cell `c` (`b` itself when `c` is out of range). -/
def place (b : Board) (c : Nat × Nat) (v : BoardSpace) : Board :=
  (assign b c.1 c.2 v).getD b

/-- The maximum of a non-empty list of scores. -/
def maxOf : List Int → Int
  | [] => 0
  | x :: xs => xs.foldl max x

/-- The minimum of a non-empty list of scores. -/
def minOf : List Int → Int
  | [] => 0
  | x :: xs => xs.foldl min x

/-- Row-major order on cells: `c` is scanned strictly before `d`. -/
def scannedBefore (c d : Nat × Nat) : Prop :=
  c.1 < d.1 ∨ (c.1 = d.1 ∧ c.2 < d.2)

instance (c d : Nat × Nat) : Decidable (scannedBefore c d) := by
  unfold scannedBefore; infer_instance

/-- The cell canonicalisation of the spec: `X`, `x` become `X`; `O`, `o` become `O`;
every other string becomes `_`. -/
def normalizeCell (s : String) : String :=
  if s = "X" ∨ s = "x" then "X" else if s = "O" ∨ s = "o" then "O" else "_"

/-- The grid canonicalisation of the spec, cell by cell. -/
def normalize (g : List (List String)) : List (List String) :=
  g.map fun row => row.map normalizeCell

/-- The colour exchange on a cell: `X` becomes `O`, `O` becomes `X`, anything else stays. -/
def swapCell (v : BoardSpace) : BoardSpace :=
  if v = X then O else if v = O then X else v

/-- The colour exchange on a board, cell by cell. -/
def swap (b : Board) : Board :=
  b.map fun row => row.map swapCell

/-- The winner that `checkWin` reports on the board with rows `a0 a1 a2`, `a3 a4 a5`,
`a6 a7 a8`, as a plain conditional in the order of the tests of `checkWin`. -/
def winnerOf (a0 a1 a2 a3 a4 a5 a6 a7 a8 : BoardSpace) : BoardSpace :=
  if a0 = a1 ∧ a1 = a2 ∧ a0 ≠ Blank then a0 else
  if a0 = a3 ∧ a3 = a6 ∧ a0 ≠ Blank then a0 else
  if a3 = a4 ∧ a4 = a5 ∧ a3 ≠ Blank then a3 else
  if a1 = a4 ∧ a4 = a7 ∧ a1 ≠ Blank then a1 else
  if a6 = a7 ∧ a7 = a8 ∧ a6 ≠ Blank then a6 else
  if a2 = a5 ∧ a5 = a8 ∧ a2 ≠ Blank then a2 else
  if a0 = a4 ∧ a4 = a8 ∧ a0 ≠ Blank then a0 else
  if a6 = a4 ∧ a4 = a2 ∧ a6 ≠ Blank then a6 else Blank

/-- A sufficient test for `k ≤ V b m` on the board `b` with rows `a0 a1 a2`, `a3 a4 a5`,
`a6 a7 a8`: a search of depth at most `n` that needs one good move where the maximizer is
to move (tried from the centre outwards) and checks every move where the minimizer is. -/
def atLeast (k : Int) : Nat → Bool → BoardSpace → BoardSpace → BoardSpace → BoardSpace →
    BoardSpace → BoardSpace → BoardSpace → BoardSpace → BoardSpace → Bool
  | 0, _, a0, a1, a2, a3, a4, a5, a6, a7, a8 =>
    if winnerOf a0 a1 a2 a3 a4 a5 a6 a7 a8 ≠ Blank then
      decide (k ≤ winnerOf a0 a1 a2 a3 a4 a5 a6 a7 a8)
    else decide (k ≤ 0) &&
      decide (a0 ≠ Blank ∧ a1 ≠ Blank ∧ a2 ≠ Blank ∧ a3 ≠ Blank ∧ a4 ≠ Blank ∧ a5 ≠ Blank ∧
        a6 ≠ Blank ∧ a7 ≠ Blank ∧ a8 ≠ Blank)
  | n + 1, m, a0, a1, a2, a3, a4, a5, a6, a7, a8 =>
    if winnerOf a0 a1 a2 a3 a4 a5 a6 a7 a8 ≠ Blank then
      decide (k ≤ winnerOf a0 a1 a2 a3 a4 a5 a6 a7 a8)
    else if a0 ≠ Blank ∧ a1 ≠ Blank ∧ a2 ≠ Blank ∧ a3 ≠ Blank ∧ a4 ≠ Blank ∧ a5 ≠ Blank ∧
        a6 ≠ Blank ∧ a7 ≠ Blank ∧ a8 ≠ Blank then
      decide (k ≤ 0)
    else if m then
        (decide (a4 = Blank) && atLeast k n false a0 a1 a2 a3 O a5 a6 a7 a8) ||
        (decide (a0 = Blank) && atLeast k n false O a1 a2 a3 a4 a5 a6 a7 a8) ||
        (decide (a2 = Blank) && atLeast k n false a0 a1 O a3 a4 a5 a6 a7 a8) ||
        (decide (a6 = Blank) && atLeast k n false a0 a1 a2 a3 a4 a5 O a7 a8) ||
        (decide (a8 = Blank) && atLeast k n false a0 a1 a2 a3 a4 a5 a6 a7 O) ||
        (decide (a1 = Blank) && atLeast k n false a0 O a2 a3 a4 a5 a6 a7 a8) ||
        (decide (a3 = Blank) && atLeast k n false a0 a1 a2 O a4 a5 a6 a7 a8) ||
        (decide (a5 = Blank) && atLeast k n false a0 a1 a2 a3 a4 O a6 a7 a8) ||
        (decide (a7 = Blank) && atLeast k n false a0 a1 a2 a3 a4 a5 a6 O a8)
    else
        (decide (a0 ≠ Blank) || atLeast k n true X a1 a2 a3 a4 a5 a6 a7 a8) &&
        (decide (a1 ≠ Blank) || atLeast k n true a0 X a2 a3 a4 a5 a6 a7 a8) &&
        (decide (a2 ≠ Blank) || atLeast k n true a0 a1 X a3 a4 a5 a6 a7 a8) &&
        (decide (a3 ≠ Blank) || atLeast k n true a0 a1 a2 X a4 a5 a6 a7 a8) &&
        (decide (a4 ≠ Blank) || atLeast k n true a0 a1 a2 a3 X a5 a6 a7 a8) &&
        (decide (a5 ≠ Blank) || atLeast k n true a0 a1 a2 a3 a4 X a6 a7 a8) &&
        (decide (a6 ≠ Blank) || atLeast k n true a0 a1 a2 a3 a4 a5 X a7 a8) &&
        (decide (a7 ≠ Blank) || atLeast k n true a0 a1 a2 a3 a4 a5 a6 X a8) &&
        (decide (a8 ≠ Blank) || atLeast k n true a0 a1 a2 a3 a4 a5 a6 a7 X)

/-! ## Reads and writes -/

theorem index_assign {α : Type} {b b' : List (List α)} {i j : Nat} {v : α}
    (h : assign b i j v = some b') (i' j' : Nat) :
    index b' i' j' = if i' = i ∧ j' = j then some v else index b i' j' := by
  unfold assign at h
  cases hrow : b[i]? with
  | none => simp [hrow] at h
  | some row =>
    simp only [hrow] at h
    split_ifs at h with hj
    simp only [Option.some.injEq] at h
    subst h
    have hi : i < b.length := by
      rcases Nat.lt_or_ge i b.length with h | h
      · exact h
      · rw [List.getElem?_eq_none h] at hrow; cases hrow
    unfold index
    by_cases e : i' = i
    · subst e
      by_cases e' : j' = j
      · subst e'
        simp [List.getElem?_set, hi, hj]
      · simp [List.getElem?_set, hi, hj, e', hrow, Ne.symm e']
    · simp [List.getElem?_set, e, Ne.symm e]

theorem assign_length {α : Type} {b b' : List (List α)} {i j : Nat} {v : α}
    (h : assign b i j v = some b') : Is3x3 b → Is3x3 b' := by
  unfold assign at h
  cases hrow : b[i]? with
  | none => simp [hrow] at h
  | some row =>
    simp only [hrow] at h
    split_ifs at h with hj
    simp only [Option.some.injEq] at h
    subst h
    rintro ⟨h1, h2⟩
    refine ⟨by simpa using h1, ?_⟩
    intro r hr
    rcases List.mem_or_eq_of_mem_set hr with h | h
    · exact h2 r h
    · subst h
      have := h2 row (List.getElem?_mem hrow)
      simpa using this

theorem assign_isSome {α : Type} {b : List (List α)} (hb : Is3x3 b) {i j : Nat} (hi : i < 3)
    (hj : j < 3) (v : α) : ∃ b', assign b i j v = some b' := by
  unfold assign
  have hi' : i < b.length := by rw [hb.1]; exact hi
  rw [List.getElem?_eq_getElem hi']
  have := hb.2 b[i] (List.getElem_mem hi')
  simp [this, hj]

theorem index_isSome {α : Type} {b : List (List α)} (hb : Is3x3 b) {i j : Nat} (hi : i < 3)
    (hj : j < 3) : ∃ v, index b i j = some v := by
  unfold index
  have hi' : i < b.length := by rw [hb.1]; exact hi
  rw [List.getElem?_eq_getElem hi']
  have := hb.2 b[i] (List.getElem_mem hi')
  simp only
  rw [List.getElem?_eq_getElem (by omega)]
  exact ⟨_, rfl⟩

theorem assign_assign {α : Type} {b b' : List (List α)} {i j : Nat} {v : α}
    (h : assign b i j v = some b') (w : α) : assign b' i j w = assign b i j w := by
  unfold assign at h
  cases hrow : b[i]? with
  | none => simp [hrow] at h
  | some row =>
    simp only [hrow] at h
    split_ifs at h with hj
    simp only [Option.some.injEq] at h
    subst h
    have hi : i < b.length := by
      rcases Nat.lt_or_ge i b.length with h | h
      · exact h
      · rw [List.getElem?_eq_none h] at hrow; cases hrow
    simp [assign, hrow, hi, hj, List.getElem?_set]

theorem set_getElem_same {α : Type} : ∀ (l : List α) (i : Nat) (h : i < l.length),
    l.set i (l[i]) = l
  | _ :: _, 0, _ => rfl
  | _ :: l, i + 1, h => by
    simp only [List.set_cons_succ, List.getElem_cons_succ, List.cons.injEq, true_and]
    exact set_getElem_same l i _

theorem assign_self {α : Type} {b : List (List α)} {i j : Nat} {v : α}
    (h : index b i j = some v) : assign b i j v = some b := by
  unfold index at h
  cases hrow : b[i]? with
  | none => simp [hrow] at h
  | some row =>
    simp only [hrow] at h
    have hj : j < row.length := by
      rcases Nat.lt_or_ge j row.length with h' | h'
      · exact h'
      · rw [List.getElem?_eq_none h'] at h; cases h
    have hi : i < b.length := by
      rcases Nat.lt_or_ge i b.length with h | h
      · exact h
      · rw [List.getElem?_eq_none h] at hrow; cases hrow
    simp only [assign, hrow, hj, if_true, Option.some.injEq]
    rw [List.getElem?_eq_getElem hj] at h
    rw [List.getElem?_eq_getElem hi] at hrow
    simp only [Option.some.injEq] at h hrow
    subst h
    subst hrow
    rw [set_getElem_same, set_getElem_same]

theorem assign_of_index {α : Type} {b : List (List α)} {i j : Nat} {u : α}
    (h : index b i j = some u) (v : α) : ∃ b', assign b i j v = some b' := by
  unfold index at h
  cases hrow : b[i]? with
  | none => simp [hrow] at h
  | some row =>
    simp only [hrow] at h
    have hj : j < row.length := by
      rcases Nat.lt_or_ge j row.length with h' | h'
      · exact h'
      · rw [List.getElem?_eq_none h'] at h; cases h
    exact ⟨b.set i (row.set j v), by simp [assign, hrow, hj]⟩

theorem filter_length_lt {α : Type} (p q : α → Bool) :
    ∀ (l : List α), (∀ x ∈ l, p x = true → q x = true) →
      (∃ x ∈ l, q x = true ∧ p x = false) → (l.filter p).length < (l.filter q).length
  | [], _, h => by obtain ⟨x, hx, _⟩ := h; cases hx
  | a :: l, hpq, hex => by
    have hle : (l.filter p).length ≤ (l.filter q).length := by
      rw [← List.countP_eq_length_filter, ← List.countP_eq_length_filter]
      exact List.countP_mono_left fun x hx => hpq x (List.mem_cons_of_mem _ hx)
    obtain ⟨x, hx, hqx, hpx⟩ := hex
    rcases List.mem_cons.1 hx with rfl | hx'
    · simp only [List.filter_cons, hqx, hpx, if_true, List.length_cons]
      simp only [Bool.false_eq_true, ↓reduceIte]
      omega
    · have ih := filter_length_lt p q l (fun y hy => hpq y (List.mem_cons_of_mem _ hy))
        ⟨x, hx', hqx, hpx⟩
      by_cases hpa : p a = true
      · have hqa := hpq a (List.mem_cons_self _ _) hpa
        simp only [List.filter_cons, hqa, hpa, if_true, List.length_cons]
        omega
      · by_cases hqa : q a = true
        · simp only [List.filter_cons, hqa, hpa, if_true, List.length_cons]
          simp only [Bool.false_eq_true, ↓reduceIte]
          omega
        · simp only [List.filter_cons, hqa, hpa]
          simpa using ih


theorem numBlank_assign_lt {b b' : Board} {i j : Nat} {v : BoardSpace}
    (hmem : (i, j) ∈ allCells) (hidx : index b i j = some Blank) (hv : v ≠ Blank)
    (hb' : assign b i j v = some b') : numBlank b' < numBlank b := by
  unfold numBlank blankCells
  apply filter_length_lt
  · intro x _ hx
    have hx' : index b' x.1 x.2 = some Blank := by simpa using hx
    rw [index_assign hb'] at hx'
    split_ifs at hx' with hc
    · simp only [Option.some.injEq] at hx'
      exact absurd hx' hv
    · simpa using hx'
  · refine ⟨(i, j), hmem, by simpa using hidx, ?_⟩
    simp only [decide_eq_false_iff_not]
    rw [index_assign hb']
    simp [hv]

theorem numBlank_place_lt {b : Board} {c : Nat × Nat} (hc : c ∈ blankCells b)
    {v : BoardSpace} (hv : v ≠ Blank) : numBlank (place b c v) < numBlank b := by
  have hc' := List.mem_filter.1 hc
  have hidx : index b c.1 c.2 = some Blank := by simpa using hc'.2
  obtain ⟨b', hb'⟩ := assign_of_index hidx v
  have : place b c v = b' := by simp [place, hb']
  rw [this]
  exact numBlank_assign_lt hc'.1 hidx hv hb'

/-! ## The terminal tests on a 3 by 3 board -/

theorem list_len3 {α : Type} {r : List α} (h : r.length = 3) : ∃ x y z, r = [x, y, z] := by
  match r, h with
  | [x, y, z], _ => exact ⟨x, y, z, rfl⟩

theorem Is3x3.lit {α : Type} {b : List (List α)} (h : Is3x3 b) :
    ∃ a0 a1 a2 a3 a4 a5 a6 a7 a8, b = [[a0, a1, a2], [a3, a4, a5], [a6, a7, a8]] := by
  obtain ⟨r0, r1, r2, rfl⟩ := list_len3 h.1
  obtain ⟨a0, a1, a2, rfl⟩ := list_len3 (h.2 r0 (by simp))
  obtain ⟨a3, a4, a5, rfl⟩ := list_len3 (h.2 r1 (by simp))
  obtain ⟨a6, a7, a8, rfl⟩ := list_len3 (h.2 r2 (by simp))
  exact ⟨a0, a1, a2, a3, a4, a5, a6, a7, a8, rfl⟩

theorem forCells_eq {σ : Type} (body : Nat → Nat → σ → Option σ) (init : σ) :
    forCells body init = allCells.foldlM (fun st c => body c.1 c.2 st) init := by
  simp [forCells, allCells, List.range_succ, List.foldlM_cons, List.foldlM_nil,
    Option.bind_assoc]

theorem lineCond_some (board : Board) (p q r : Nat × Nat) (a b c : BoardSpace)
    (hp : index board p.1 p.2 = some a) (hq : index board q.1 q.2 = some b)
    (hr : index board r.1 r.2 = some c) :
    lineCond board p q r = some (decide (a = b ∧ b = c ∧ a ≠ Blank)) := by
  simp only [lineCond, hp, hq, hr, Option.bind_eq_bind, Option.some_bind, Option.pure_def]
  by_cases h1 : a = b
  · by_cases h2 : b = c
    · by_cases h3 : a = Blank <;> simp [h1, h2, h3] <;> simp_all
    · simp [h1, h2]
  · simp [h1]

theorem checkWin_lit (a0 a1 a2 a3 a4 a5 a6 a7 a8 : BoardSpace) :
    checkWin [[a0, a1, a2], [a3, a4, a5], [a6, a7, a8]] = some (
      if a0 = a1 ∧ a1 = a2 ∧ a0 ≠ Blank then a0 else
      if a0 = a3 ∧ a3 = a6 ∧ a0 ≠ Blank then a0 else
      if a3 = a4 ∧ a4 = a5 ∧ a3 ≠ Blank then a3 else
      if a1 = a4 ∧ a4 = a7 ∧ a1 ≠ Blank then a1 else
      if a6 = a7 ∧ a7 = a8 ∧ a6 ≠ Blank then a6 else
      if a2 = a5 ∧ a5 = a8 ∧ a2 ≠ Blank then a2 else
      if a0 = a4 ∧ a4 = a8 ∧ a0 ≠ Blank then a0 else
      if a6 = a4 ∧ a4 = a2 ∧ a6 ≠ Blank then a6 else Blank) := by
  have hl : ∀ (p q r : Nat × Nat) (a b c : BoardSpace),
      index [[a0, a1, a2], [a3, a4, a5], [a6, a7, a8]] p.1 p.2 = some a →
      index [[a0, a1, a2], [a3, a4, a5], [a6, a7, a8]] q.1 q.2 = some b →
      index [[a0, a1, a2], [a3, a4, a5], [a6, a7, a8]] r.1 r.2 = some c →
      lineCond [[a0, a1, a2], [a3, a4, a5], [a6, a7, a8]] p q r
        = some (decide (a = b ∧ b = c ∧ a ≠ Blank)) := fun p q r a b c => lineCond_some _ p q r a b c
  simp only [checkWin, checkWinLoop, List.range_succ, List.range_zero, List.nil_append,
    List.cons_append, Option.bind_eq_bind, Option.pure_def,
    hl (0, 0) (0, 1) (0, 2) a0 a1 a2 rfl rfl rfl,
    hl (0, 0) (1, 0) (2, 0) a0 a3 a6 rfl rfl rfl,
    hl (1, 0) (1, 1) (1, 2) a3 a4 a5 rfl rfl rfl,
    hl (0, 1) (1, 1) (2, 1) a1 a4 a7 rfl rfl rfl,
    hl (2, 0) (2, 1) (2, 2) a6 a7 a8 rfl rfl rfl,
    hl (0, 2) (1, 2) (2, 2) a2 a5 a8 rfl rfl rfl,
    hl (0, 0) (1, 1) (2, 2) a0 a4 a8 rfl rfl rfl,
    hl (2, 0) (1, 1) (0, 2) a6 a4 a2 rfl rfl rfl,
    Option.some_bind, decide_eq_true_eq]
  split_ifs <;> rfl

theorem checkFull_lit (a0 a1 a2 a3 a4 a5 a6 a7 a8 : BoardSpace) :
    checkFull [[a0, a1, a2], [a3, a4, a5], [a6, a7, a8]] = some (decide
      (a0 ≠ Blank ∧ a1 ≠ Blank ∧ a2 ≠ Blank ∧ a3 ≠ Blank ∧ a4 ≠ Blank ∧ a5 ≠ Blank ∧
        a6 ≠ Blank ∧ a7 ≠ Blank ∧ a8 ≠ Blank)) := by
  simp only [checkFull, index, List.range_succ, List.range_zero, List.nil_append,
    List.cons_append, List.allM, Option.bind_eq_bind, Option.pure_def, Option.some_bind,
    List.getElem?_cons_zero, List.getElem?_cons_succ]
  cases h0 : (a0 != Blank)
  · simp_all
  cases h1 : (a1 != Blank)
  · simp_all
  cases h2 : (a2 != Blank)
  · simp_all
  cases h3 : (a3 != Blank)
  · simp_all
  cases h4 : (a4 != Blank)
  · simp_all
  cases h5 : (a5 != Blank)
  · simp_all
  cases h6 : (a6 != Blank)
  · simp_all
  cases h7 : (a7 != Blank)
  · simp_all
  cases h8 : (a8 != Blank)
  · simp_all
  simp_all

theorem exists_mark_iff (a b c : BoardSpace) :
    (∃ v, v ≠ Blank ∧ a = v ∧ b = v ∧ c = v) ↔ (a = b ∧ b = c ∧ a ≠ Blank) := by
  constructor
  · rintro ⟨v, hv, rfl, rfl, rfl⟩
    exact ⟨rfl, rfl, hv⟩
  · rintro ⟨rfl, rfl, hv⟩
    exact ⟨_, hv, rfl, rfl, rfl⟩

theorem checkWin_spec (b : Board) (hb : Is3x3 b) :
    ∃ w, checkWin b = some w ∧
      (w ≠ Blank ↔ ∃ l ∈ allLines, ∃ v, v ≠ Blank ∧ LineHolds b l v) ∧
      (w ≠ Blank → ∃ l ∈ allLines, LineHolds b l w) := by
  obtain ⟨a0, a1, a2, a3, a4, a5, a6, a7, a8, rfl⟩ := hb.lit
  refine ⟨_, checkWin_lit a0 a1 a2 a3 a4 a5 a6 a7 a8, ?_, ?_⟩
  · simp only [allLines, LineHolds, index, List.mem_cons, List.mem_singleton, exists_eq_or_imp,
      List.getElem?_cons_zero, List.getElem?_cons_succ, Option.some.injEq, List.not_mem_nil,
      exists_eq_left, false_or, or_false, exists_false, exists_mark_iff]
    split_ifs with h1 h2 h3 h4 h5 h6 h7 h8
    · exact ⟨fun _ => Or.inl h1, fun _ => h1.2.2⟩
    · exact ⟨fun _ => Or.inr (Or.inr (Or.inr (Or.inl h2))), fun _ => h2.2.2⟩
    · exact ⟨fun _ => Or.inr (Or.inl h3), fun _ => h3.2.2⟩
    · exact ⟨fun _ => Or.inr (Or.inr (Or.inr (Or.inr (Or.inl h4)))), fun _ => h4.2.2⟩
    · exact ⟨fun _ => Or.inr (Or.inr (Or.inl h5)), fun _ => h5.2.2⟩
    · exact ⟨fun _ => Or.inr (Or.inr (Or.inr (Or.inr (Or.inr (Or.inl h6))))), fun _ => h6.2.2⟩
    · exact ⟨fun _ => Or.inr (Or.inr (Or.inr (Or.inr (Or.inr (Or.inr (Or.inl h7)))))), fun _ => h7.2.2⟩
    · exact ⟨fun _ => Or.inr (Or.inr (Or.inr (Or.inr (Or.inr (Or.inr (Or.inr (h8))))))), fun _ => h8.2.2⟩
    · exact ⟨fun h => absurd rfl h, fun h => by
        rcases h with h | h | h | h | h | h | h | h <;> contradiction⟩
  · simp only [allLines, LineHolds, index, List.mem_cons, List.mem_singleton, exists_eq_or_imp,
      List.getElem?_cons_zero, List.getElem?_cons_succ, Option.some.injEq, List.not_mem_nil,
      exists_eq_left, false_or, or_false, exists_false]
    split_ifs with h1 h2 h3 h4 h5 h6 h7 h8
    · obtain ⟨rfl, rfl, _⟩ := h1; simp
    · obtain ⟨rfl, rfl, _⟩ := h2; simp
    · obtain ⟨rfl, rfl, _⟩ := h3; simp
    · obtain ⟨rfl, rfl, _⟩ := h4; simp
    · obtain ⟨rfl, rfl, _⟩ := h5; simp
    · obtain ⟨rfl, rfl, _⟩ := h6; simp
    · obtain ⟨rfl, rfl, _⟩ := h7; simp
    · obtain ⟨rfl, rfl, _⟩ := h8; simp
    · simp

theorem checkWin_total {b : Board} (hb : Is3x3 b) : ∃ w, checkWin b = some w := by
  obtain ⟨a0, a1, a2, a3, a4, a5, a6, a7, a8, rfl⟩ := hb.lit
  exact ⟨_, checkWin_lit a0 a1 a2 a3 a4 a5 a6 a7 a8⟩

theorem blankCells_lit (a0 a1 a2 a3 a4 a5 a6 a7 a8 : BoardSpace) :
    blankCells [[a0, a1, a2], [a3, a4, a5], [a6, a7, a8]] = [] ↔
      (a0 ≠ Blank ∧ a1 ≠ Blank ∧ a2 ≠ Blank ∧ a3 ≠ Blank ∧ a4 ≠ Blank ∧ a5 ≠ Blank ∧
        a6 ≠ Blank ∧ a7 ≠ Blank ∧ a8 ≠ Blank) := by
  have e0 : index [[a0, a1, a2], [a3, a4, a5], [a6, a7, a8]] 0 0 = some a0 := rfl
  have e1 : index [[a0, a1, a2], [a3, a4, a5], [a6, a7, a8]] 0 1 = some a1 := rfl
  have e2 : index [[a0, a1, a2], [a3, a4, a5], [a6, a7, a8]] 0 2 = some a2 := rfl
  have e3 : index [[a0, a1, a2], [a3, a4, a5], [a6, a7, a8]] 1 0 = some a3 := rfl
  have e4 : index [[a0, a1, a2], [a3, a4, a5], [a6, a7, a8]] 1 1 = some a4 := rfl
  have e5 : index [[a0, a1, a2], [a3, a4, a5], [a6, a7, a8]] 1 2 = some a5 := rfl
  have e6 : index [[a0, a1, a2], [a3, a4, a5], [a6, a7, a8]] 2 0 = some a6 := rfl
  have e7 : index [[a0, a1, a2], [a3, a4, a5], [a6, a7, a8]] 2 1 = some a7 := rfl
  have e8 : index [[a0, a1, a2], [a3, a4, a5], [a6, a7, a8]] 2 2 = some a8 := rfl
  simp [blankCells, allCells, List.filter_eq_nil_iff, e0, e1, e2, e3, e4, e5, e6, e7, e8]

theorem checkFull_eq {b : Board} (hb : Is3x3 b) :
    checkFull b = some (decide (blankCells b = [])) := by
  obtain ⟨a0, a1, a2, a3, a4, a5, a6, a7, a8, rfl⟩ := hb.lit
  rw [checkFull_lit]
  congr 1
  rw [decide_eq_decide]
  exact (blankCells_lit a0 a1 a2 a3 a4 a5 a6 a7 a8).symm

theorem mem_allCells {c : Nat × Nat} : c ∈ allCells ↔ c.1 < 3 ∧ c.2 < 3 := by
  obtain ⟨i, j⟩ := c
  simp only [allCells, List.mem_cons, Prod.mk.injEq, List.mem_singleton, List.not_mem_nil,
    or_false]
  constructor
  · rintro (⟨rfl, rfl⟩ | ⟨rfl, rfl⟩ | ⟨rfl, rfl⟩ | ⟨rfl, rfl⟩ | ⟨rfl, rfl⟩ | ⟨rfl, rfl⟩ |
      ⟨rfl, rfl⟩ | ⟨rfl, rfl⟩ | ⟨rfl, rfl⟩) <;> decide
  · rintro ⟨hi, hj⟩
    interval_cases i <;> interval_cases j <;> simp

theorem blankCells_eq_nil_iff {b : Board} :
    blankCells b = [] ↔ ∀ i < 3, ∀ j < 3, index b i j ≠ some Blank := by
  unfold blankCells
  rw [List.filter_eq_nil_iff]
  constructor
  · intro h i hi j hj
    have := h (i, j) (mem_allCells.2 ⟨hi, hj⟩)
    simpa using this
  · intro h c hc
    have := h c.1 (mem_allCells.1 hc).1 c.2 (mem_allCells.1 hc).2
    simpa using this

theorem OverMarks.index {b : Board} (hb : OverMarks b) {i j : Nat} {v : BoardSpace}
    (h : index b i j = some v) : v = X ∨ v = Blank ∨ v = O := by
  unfold TicTacGo.index at h
  cases hrow : b[i]? with
  | none => simp [hrow] at h
  | some row =>
    simp only [hrow] at h
    exact hb row (List.getElem?_mem hrow) v (List.getElem?_mem h)

theorem OverMarks.assign {b b' : Board} (hb : OverMarks b) {i j : Nat} {v : BoardSpace}
    (hv : v = X ∨ v = Blank ∨ v = O) (h : assign b i j v = some b') : OverMarks b' := by
  unfold TicTacGo.assign at h
  cases hrow : b[i]? with
  | none => simp [hrow] at h
  | some row =>
    simp only [hrow] at h
    split_ifs at h with hj
    simp only [Option.some.injEq] at h
    subst h
    intro r hr u hu
    rcases List.mem_or_eq_of_mem_set hr with h | h
    · exact hb r h u hu
    · subst h
      rcases List.mem_or_eq_of_mem_set hu with h | h
      · exact hb row (List.getElem?_mem hrow) u h
      · subst h; exact hv

theorem checkWin_mark {b : Board} (hb : Is3x3 b) (hm : OverMarks b) {w : BoardSpace}
    (h : checkWin b = some w) : w = X ∨ w = Blank ∨ w = O := by
  obtain ⟨w', hw', _, hl⟩ := checkWin_spec b hb
  rw [h] at hw'
  simp only [Option.some.injEq] at hw'
  subst hw'
  by_cases hw : w = Blank
  · exact Or.inr (Or.inl hw)
  · obtain ⟨l, _, hl⟩ := hl hw
    exact hm.index hl.1


/-! ## Loops -/

theorem foldl_cond {α β : Type} (p : α → Bool) (h : β → α → β) :
    ∀ (l : List α) (init : β),
      l.foldl (fun acc x => if p x = true then h acc x else acc) init = (l.filter p).foldl h init
  | [], _ => rfl
  | x :: l, init => by
    by_cases hp : p x = true
    · simp only [List.foldl_cons, hp, if_true, List.filter_cons]
      exact foldl_cond p h l _
    · simp only [List.foldl_cons, hp, if_false, List.filter_cons]
      simp only [Bool.false_eq_true, ↓reduceIte]
      exact foldl_cond p h l _

theorem foldl_max_ge (l : List Int) (a : Int) : a ≤ l.foldl max a := by
  induction l generalizing a with
  | nil => exact le_refl _
  | cons x l ih => exact le_trans (le_max_left a x) (ih (max a x))

theorem foldl_max_mem (l : List Int) (a : Int) : l.foldl max a = a ∨ l.foldl max a ∈ l := by
  induction l generalizing a with
  | nil => exact Or.inl rfl
  | cons x l ih =>
    rcases ih (max a x) with h | h
    · rcases max_choice a x with h' | h'
      · left; rw [List.foldl_cons, h, h']
      · right; rw [List.foldl_cons, h, h']; exact List.mem_cons_self _ _
    · right; exact List.mem_cons_of_mem _ h

theorem foldl_max_le (l : List Int) (a : Int) : ∀ x ∈ l, x ≤ l.foldl max a := by
  induction l generalizing a with
  | nil => intro x hx; cases hx
  | cons y l ih =>
    intro x hx
    rcases List.mem_cons.1 hx with rfl | hx
    · exact le_trans (le_max_right a x) (foldl_max_ge l _)
    · exact ih _ x hx

theorem foldl_min_le (l : List Int) (a : Int) : l.foldl min a ≤ a := by
  induction l generalizing a with
  | nil => exact le_refl _
  | cons x l ih => exact le_trans (ih (min a x)) (min_le_left a x)

theorem foldl_min_mem (l : List Int) (a : Int) : l.foldl min a = a ∨ l.foldl min a ∈ l := by
  induction l generalizing a with
  | nil => exact Or.inl rfl
  | cons x l ih =>
    rcases ih (min a x) with h | h
    · rcases min_choice a x with h' | h'
      · left; rw [List.foldl_cons, h, h']
      · right; rw [List.foldl_cons, h, h']; exact List.mem_cons_self _ _
    · right; exact List.mem_cons_of_mem _ h

theorem foldl_min_ge (l : List Int) (a : Int) : ∀ x ∈ l, l.foldl min a ≤ x := by
  induction l generalizing a with
  | nil => intro x hx; cases hx
  | cons y l ih =>
    intro x hx
    rcases List.mem_cons.1 hx with rfl | hx
    · exact le_trans (foldl_min_le l _) (min_le_right a x)
    · exact ih _ x hx

theorem maxOf_mem {l : List Int} (h : l ≠ []) : maxOf l ∈ l := by
  cases l with
  | nil => exact absurd rfl h
  | cons x xs =>
    rcases foldl_max_mem xs x with h' | h'
    · simp only [maxOf, h']; exact List.mem_cons_self _ _
    · exact List.mem_cons_of_mem _ h'

theorem le_maxOf {l : List Int} {x : Int} (h : x ∈ l) : x ≤ maxOf l := by
  cases l with
  | nil => cases h
  | cons y ys =>
    rcases List.mem_cons.1 h with rfl | h
    · exact foldl_max_ge ys _
    · exact foldl_max_le ys _ x h

theorem minOf_mem {l : List Int} (h : l ≠ []) : minOf l ∈ l := by
  cases l with
  | nil => exact absurd rfl h
  | cons x xs =>
    rcases foldl_min_mem xs x with h' | h'
    · simp only [minOf, h']; exact List.mem_cons_self _ _
    · exact List.mem_cons_of_mem _ h'

theorem minOf_le {l : List Int} {x : Int} (h : x ∈ l) : minOf l ≤ x := by
  cases l with
  | nil => cases h
  | cons y ys =>
    rcases List.mem_cons.1 h with rfl | h
    · exact foldl_min_le ys _
    · exact foldl_min_ge ys _ x h

/-- The `if res > best { best = res }` loop computes the maximum once a first
score has replaced the sentinel. -/
theorem foldl_gt_eq_maxOf {l : List Int} (hl : l ≠ []) {init : Int} (h : ∀ x ∈ l, init ≤ x) :
    l.foldl (fun best res => if res > best then res else best) init = maxOf l := by
  have e : (fun best res : Int => if res > best then res else best) = max := by
    funext a b
    rcases le_total a b with h | h
    · rw [max_eq_right h]; split_ifs with h'
      · rfl
      · omega
    · rw [max_eq_left h]; split_ifs with h'
      · omega
      · rfl
  rw [e]
  cases l with
  | nil => exact absurd rfl hl
  | cons x xs =>
    simp only [List.foldl_cons, maxOf]
    rw [max_eq_right (h x (List.mem_cons_self _ _))]

theorem foldl_lt_eq_minOf {l : List Int} (hl : l ≠ []) {init : Int} (h : ∀ x ∈ l, x ≤ init) :
    l.foldl (fun best res => if res < best then res else best) init = minOf l := by
  have e : (fun best res : Int => if res < best then res else best) = min := by
    funext a b
    rcases le_total a b with h | h
    · rw [min_eq_left h]; split_ifs with h'
      · omega
      · rfl
    · rw [min_eq_right h]; split_ifs with h'
      · rfl
      · omega
  rw [e]
  cases l with
  | nil => exact absurd rfl hl
  | cons x xs =>
    simp only [List.foldl_cons, minOf]
    rw [min_eq_right (h x (List.mem_cons_self _ _))]

/-! ## The reference value -/

/-- The textbook minimax value of the spec: the winner's mark as an integer when
`checkWin` reports a winner, else `0` on a full board, else the maximum (when the
maximizer is to move, placing `O`) or the minimum (when the minimizer is to move,
placing `X`) of the values of the positions reached by filling one `Blank` cell.
The recursion is well founded because every call fills one `Blank` cell
(`numBlank_place_lt`), which is why the definition follows that lemma. -/
def V (b : Board) (m : Bool) : Int :=
  if (checkWin b).getD Blank ≠ Blank then (checkWin b).getD Blank
  else if blankCells b = [] then 0
  else if m then maxOf ((blankCells b).attach.map fun c => V (place b c.1 O) false)
  else minOf ((blankCells b).attach.map fun c => V (place b c.1 X) true)
termination_by numBlank b
decreasing_by
  · exact numBlank_place_lt c.2 (by decide)
  · exact numBlank_place_lt c.2 (by decide)

theorem V_eq (b : Board) (m : Bool) :
    V b m =
      if (checkWin b).getD Blank ≠ Blank then (checkWin b).getD Blank
      else if blankCells b = [] then 0
      else if m then maxOf ((blankCells b).map fun c => V (place b c O) false)
      else minOf ((blankCells b).map fun c => V (place b c X) true) := by
  rw [V]
  simp only [List.attach_map_val (blankCells b) (fun c => V (place b c O) false),
    List.attach_map_val (blankCells b) (fun c => V (place b c X) true)]

theorem foldlM_fixed {σ γ α : Type} (mk : γ → σ) (f : σ → α → Option σ) (g : γ → α → γ) :
    ∀ (l : List α) (init : γ), (∀ s x, x ∈ l → f (mk s) x = some (mk (g s x))) →
      l.foldlM f (mk init) = some (mk (l.foldl g init))
  | [], _, _ => rfl
  | x :: l, init, h => by
    simp only [List.foldlM_cons, h init x (List.mem_cons_self _ _), Option.bind_eq_bind,
      Option.some_bind, List.foldl_cons]
    exact foldlM_fixed mk f g l _ (fun s y hy => h s y (List.mem_cons_of_mem _ hy))

theorem place_of_blank {b : Board} {c : Nat × Nat} (hc : index b c.1 c.2 = some Blank)
    (v : BoardSpace) : assign b c.1 c.2 v = some (place b c v) := by
  obtain ⟨b', hb'⟩ := assign_of_index hc v
  simp [place, hb']

theorem mem_blankCells {b : Board} {c : Nat × Nat} :
    c ∈ blankCells b ↔ c ∈ allCells ∧ index b c.1 c.2 = some Blank := by
  simp [blankCells, List.mem_filter]

theorem maxStep_eq {b : Board} (hb : Is3x3 b) {rec : Board → Option (Board × Int)}
    (val : Nat × Nat → Int) {c : Nat × Nat} (hc : c ∈ allCells)
    (hrec : index b c.1 c.2 = some Blank → rec (place b c O) = some (place b c O, val c))
    (best : Int) :
    maxStep rec c.1 c.2 (b, best) =
      some (b, if (decide (index b c.1 c.2 = some Blank)) = true then
        (if val c > best then val c else best) else best) := by
  obtain ⟨v, hv⟩ := index_isSome hb (mem_allCells.1 hc).1 (mem_allCells.1 hc).2
  by_cases h : v = Blank
  · subst h
    have h1 := place_of_blank hv O
    have h2 : assign (place b c O) c.1 c.2 Blank = some b := by
      rw [assign_assign h1]; exact assign_self hv
    simp [maxStep, hv, h1, hrec hv, h2]
  · simp [maxStep, hv, h]

theorem minStep_eq {b : Board} (hb : Is3x3 b) {rec : Board → Option (Board × Int)}
    (val : Nat × Nat → Int) {c : Nat × Nat} (hc : c ∈ allCells)
    (hrec : index b c.1 c.2 = some Blank → rec (place b c X) = some (place b c X, val c))
    (best : Int) :
    minStep rec c.1 c.2 (b, best) =
      some (b, if (decide (index b c.1 c.2 = some Blank)) = true then
        (if val c < best then val c else best) else best) := by
  obtain ⟨v, hv⟩ := index_isSome hb (mem_allCells.1 hc).1 (mem_allCells.1 hc).2
  by_cases h : v = Blank
  · subst h
    have h1 := place_of_blank hv X
    have h2 : assign (place b c X) c.1 c.2 Blank = some b := by
      rw [assign_assign h1]; exact assign_self hv
    simp [minStep, hv, h1, hrec hv, h2]
  · simp [minStep, hv, h]

theorem place_is3x3 {b : Board} (hb : Is3x3 b) {c : Nat × Nat}
    (hc : index b c.1 c.2 = some Blank) (v : BoardSpace) : Is3x3 (place b c v) :=
  assign_length (place_of_blank hc v) hb

theorem place_overMarks {b : Board} (hb : OverMarks b) {c : Nat × Nat}
    (hc : index b c.1 c.2 = some Blank) {v : BoardSpace} (hv : v = X ∨ v = Blank ∨ v = O) :
    OverMarks (place b c v) :=
  hb.assign hv (place_of_blank hc v)

theorem V_range : ∀ (n : Nat) (b : Board) (m : Bool), numBlank b ≤ n → Is3x3 b → OverMarks b →
    V b m = X ∨ V b m = Blank ∨ V b m = O := by
  intro n
  induction n with
  | zero =>
    intro b m hn hb hm
    obtain ⟨w, hw⟩ := checkWin_total hb
    have hnil : blankCells b = [] := List.eq_nil_of_length_eq_zero (Nat.le_zero.1 hn)
    rw [V_eq, hw, Option.getD_some]
    split_ifs
    · exact checkWin_mark hb hm hw
    · exact Or.inr (Or.inl rfl)
  | succ n ih =>
    intro b m hn hb hm
    obtain ⟨w, hw⟩ := checkWin_total hb
    rw [V_eq, hw, Option.getD_some]
    split_ifs with h1 h2 h3
    · exact checkWin_mark hb hm hw
    · exact Or.inr (Or.inl rfl)
    · have := maxOf_mem (l := (blankCells b).map fun c => V (place b c O) false)
        (by simpa using h2)
      obtain ⟨c, hc, hcv⟩ := List.mem_map.1 this
      rw [← hcv]
      have hc' := (mem_blankCells.1 hc).2
      exact ih _ _ (by have := numBlank_place_lt hc (v := O) (by decide); omega)
        (place_is3x3 hb hc' O) (place_overMarks hm hc' (Or.inr (Or.inr rfl)))
    · have := minOf_mem (l := (blankCells b).map fun c => V (place b c X) true)
        (by simpa using h2)
      obtain ⟨c, hc, hcv⟩ := List.mem_map.1 this
      rw [← hcv]
      have hc' := (mem_blankCells.1 hc).2
      exact ih _ _ (by have := numBlank_place_lt hc (v := X) (by decide); omega)
        (place_is3x3 hb hc' X) (place_overMarks hm hc' (Or.inl rfl))

theorem V_bounds {b : Board} (hb : Is3x3 b) (hm : OverMarks b) (m : Bool) :
    MinInt ≤ V b m ∧ V b m ≤ MaxInt ∧ -1 ≤ V b m ∧ V b m ≤ 1 := by
  rcases V_range _ b m (le_refl _) hb hm with h | h | h <;> rw [h] <;> decide

theorem scan_max (b : Board) (val : Nat × Nat → Int) (init : Int) :
    allCells.foldl (fun best c => if (decide (index b c.1 c.2 = some Blank)) = true then
        (if val c > best then val c else best) else best) init =
      ((blankCells b).map val).foldl (fun best r => if r > best then r else best) init := by
  rw [foldl_cond (fun c => decide (index b c.1 c.2 = some Blank))
    (fun best c => if val c > best then val c else best), List.foldl_map]
  rfl

theorem scan_min (b : Board) (val : Nat × Nat → Int) (init : Int) :
    allCells.foldl (fun best c => if (decide (index b c.1 c.2 = some Blank)) = true then
        (if val c < best then val c else best) else best) init =
      ((blankCells b).map val).foldl (fun best r => if r < best then r else best) init := by
  rw [foldl_cond (fun c => decide (index b c.1 c.2 = some Blank))
    (fun best c => if val c < best then val c else best), List.foldl_map]
  rfl

theorem minimax_eq_V : ∀ (fuel : Nat) (b : Board) (m : Bool), Is3x3 b → OverMarks b →
    numBlank b < fuel → minimax fuel b m = some (b, V b m) := by
  intro fuel
  induction fuel with
  | zero => intro b m _ _ h; exact absurd h (Nat.not_lt_zero _)
  | succ fuel ih =>
    intro b m hb hm hn
    obtain ⟨w, hw⟩ := checkWin_total hb
    rw [V_eq, hw, Option.getD_some]
    simp only [minimax, hw, checkFull_eq hb, Option.bind_eq_bind, Option.some_bind,
      Option.pure_def]
    by_cases h1 : w = Blank
    · subst h1
      by_cases h2 : blankCells b = []
      · simp [h2, Blank]
      · have hrec : ∀ (v : BoardSpace) (m' : Bool), v ≠ Blank → (v = X ∨ v = Blank ∨ v = O) →
            ∀ c ∈ allCells, index b c.1 c.2 = some Blank →
            minimax fuel (place b c v) m' = some (place b c v, V (place b c v) m') := by
          intro v m' hv hv' c hc hidx
          apply ih _ _ (place_is3x3 hb hidx v) (place_overMarks hm hidx hv')
          have := numBlank_place_lt (mem_blankCells.2 ⟨hc, hidx⟩) hv
          omega
        cases m with
        | true =>
          have hloop := foldlM_fixed (fun best : Int => (b, best))
            (fun st (c : Nat × Nat) => maxStep (fun b => minimax fuel b false) c.1 c.2 st)
            (fun best c => if (decide (index b c.1 c.2 = some Blank)) = true then
              (if V (place b c O) false > best then V (place b c O) false else best) else best)
            allCells MinInt
            (fun best c hc => maxStep_eq hb (fun c => V (place b c O) false) hc
              (hrec O false (by decide) (Or.inr (Or.inr rfl)) c hc) best)
          have hval : ∀ x ∈ (blankCells b).map (fun c => V (place b c O) false),
              MinInt ≤ x := by
            intro x hx
            obtain ⟨c, hc, rfl⟩ := List.mem_map.1 hx
            have hc' := (mem_blankCells.1 hc).2
            exact (V_bounds (place_is3x3 hb hc' O)
              (place_overMarks hm hc' (Or.inr (Or.inr rfl))) false).1
          simp only [h2, forCells_eq, hloop, scan_max,
            foldl_gt_eq_maxOf (by simpa using h2) hval]
          simp [Blank]
        | false =>
          have hloop := foldlM_fixed (fun best : Int => (b, best))
            (fun st (c : Nat × Nat) => minStep (fun b => minimax fuel b true) c.1 c.2 st)
            (fun best c => if (decide (index b c.1 c.2 = some Blank)) = true then
              (if V (place b c X) true < best then V (place b c X) true else best) else best)
            allCells MaxInt
            (fun best c hc => minStep_eq hb (fun c => V (place b c X) true) hc
              (hrec X true (by decide) (Or.inl rfl) c hc) best)
          have hval : ∀ x ∈ (blankCells b).map (fun c => V (place b c X) true),
              x ≤ MaxInt := by
            intro x hx
            obtain ⟨c, hc, rfl⟩ := List.mem_map.1 hx
            have hc' := (mem_blankCells.1 hc).2
            exact (V_bounds (place_is3x3 hb hc' X)
              (place_overMarks hm hc' (Or.inl rfl)) true).2.1
          simp only [h2, forCells_eq, hloop, scan_min,
            foldl_lt_eq_minOf (by simpa using h2) hval]
          simp [Blank]
    · have h1' : w ≠ 0 := h1
      simp [h1, h1']

/-! ## The scan of `nextMove` -/

theorem pick_inv {α : Type} (R : Int → Int → Prop) [DecidableRel R] (val : α → Int)
    (ha : ∀ a s y, R a s → ¬ R y s → R a y) (ht : ∀ a b c, R a b → R b c → R a c) :
    ∀ (l pre : List α) (d : α) (l1 l2 : List α), pre = l1 ++ d :: l2 →
      (∀ y ∈ l1, R (val d) (val y)) → (∀ y ∈ l2, ¬ R (val y) (val d)) →
      ∃ d' l1' l2',
        l.foldl (fun st c => if R (val c) st.1 then (val c, c) else st) (val d, d) = (val d', d') ∧
        pre ++ l = l1' ++ d' :: l2' ∧
        (∀ y ∈ l1', R (val d') (val y)) ∧ (∀ y ∈ l2', ¬ R (val y) (val d')) := by
  intro l
  induction l with
  | nil =>
    intro pre d l1 l2 hpre h1 h2
    exact ⟨d, l1, l2, rfl, by simpa using hpre, h1, h2⟩
  | cons x l ih =>
    intro pre d l1 l2 hpre h1 h2
    by_cases hx : R (val x) (val d)
    · obtain ⟨d', l1', l2', e1, e2, e3, e4⟩ := ih (pre ++ [x]) x pre [] (by simp)
        (by
          intro y hy
          rw [hpre] at hy
          rcases List.mem_append.1 hy with hy | hy
          · exact ht _ _ _ hx (h1 y hy)
          · rcases List.mem_cons.1 hy with rfl | hy
            · exact hx
            · exact ha _ _ _ hx (h2 y hy))
        (by intro y hy; cases hy)
      refine ⟨d', l1', l2', ?_, ?_, e3, e4⟩
      · simp only [List.foldl_cons, hx, if_true]; exact e1
      · rw [← e2]; simp
    · obtain ⟨d', l1', l2', e1, e2, e3, e4⟩ := ih (pre ++ [x]) d l1 (l2 ++ [x])
        (by rw [hpre]; simp) h1
        (by
          intro y hy
          rcases List.mem_append.1 hy with hy | hy
          · exact h2 y hy
          · rw [List.mem_singleton.1 hy]; exact hx)
      refine ⟨d', l1', l2', ?_, ?_, e3, e4⟩
      · simp only [List.foldl_cons, hx, if_false]; exact e1
      · rw [← e2]; simp

theorem pick_first {α : Type} (R : Int → Int → Prop) [DecidableRel R] (val : α → Int)
    (ha : ∀ a s y, R a s → ¬ R y s → R a y) (ht : ∀ a b c, R a b → R b c → R a c)
    {l : List α} (hl : l ≠ []) (s0 : Int) (d0 : α) (h0 : ∀ y ∈ l, R (val y) s0) :
    ∃ d l1 l2,
      l.foldl (fun st c => if R (val c) st.1 then (val c, c) else st) (s0, d0) = (val d, d) ∧
      l = l1 ++ d :: l2 ∧
      (∀ y ∈ l1, R (val d) (val y)) ∧ (∀ y ∈ l2, ¬ R (val y) (val d)) := by
  cases l with
  | nil => exact absurd rfl hl
  | cons x xs =>
    obtain ⟨d', l1', l2', e1, e2, e3, e4⟩ := pick_inv R val ha ht xs [x] x [] [] rfl
      (by intro y hy; cases hy) (by intro y hy; cases hy)
    refine ⟨d', l1', l2', ?_, by simpa using e2, e3, e4⟩
    simp only [List.foldl_cons, h0 x (List.mem_cons_self _ _), if_true]
    exact e1

theorem moveStep_eq_X {b : Board} (hb : Is3x3 b) {fuel : Nat} (val : Nat × Nat → Int)
    {c : Nat × Nat} (hc : c ∈ allCells)
    (hrec : index b c.1 c.2 = some Blank →
      minimax fuel (place b c X) true = some (place b c X, val c))
    (st : Int × (Nat × Nat)) :
    moveStep fuel X false c.1 c.2
        { board := b, bestScore := st.1, bestRow := st.2.1, bestCol := st.2.2 } =
      some ((fun st : Int × (Nat × Nat) =>
          ({ board := b, bestScore := st.1, bestRow := st.2.1, bestCol := st.2.2 } : MoveState))
        (if (decide (index b c.1 c.2 = some Blank)) = true then
          (if val c < st.1 then (val c, c) else st) else st)) := by
  obtain ⟨v, hv⟩ := index_isSome hb (mem_allCells.1 hc).1 (mem_allCells.1 hc).2
  by_cases h : v = Blank
  · subst h
    have h1 := place_of_blank hv X
    have h2 : assign (place b c X) c.1 c.2 Blank = some b := by
      rw [assign_assign h1]; exact assign_self hv
    have e1 : (X == X) = true := by decide
    have e2 : (X == O) = false := by decide
    by_cases hlt : val c < st.1
    · simp [moveStep, hv, h1, hrec hv, h2, e1, e2, hlt]
    · simp [moveStep, hv, h1, hrec hv, h2, e1, e2, hlt]
  · simp [moveStep, hv, h]

theorem moveStep_eq_O {b : Board} (hb : Is3x3 b) {fuel : Nat} (val : Nat × Nat → Int)
    {c : Nat × Nat} (hc : c ∈ allCells)
    (hrec : index b c.1 c.2 = some Blank →
      minimax fuel (place b c O) false = some (place b c O, val c))
    (st : Int × (Nat × Nat)) :
    moveStep fuel O true c.1 c.2
        { board := b, bestScore := st.1, bestRow := st.2.1, bestCol := st.2.2 } =
      some ((fun st : Int × (Nat × Nat) =>
          ({ board := b, bestScore := st.1, bestRow := st.2.1, bestCol := st.2.2 } : MoveState))
        (if (decide (index b c.1 c.2 = some Blank)) = true then
          (if val c > st.1 then (val c, c) else st) else st)) := by
  obtain ⟨v, hv⟩ := index_isSome hb (mem_allCells.1 hc).1 (mem_allCells.1 hc).2
  by_cases h : v = Blank
  · subst h
    have h1 := place_of_blank hv O
    have h2 : assign (place b c O) c.1 c.2 Blank = some b := by
      rw [assign_assign h1]; exact assign_self hv
    have e1 : (O == O) = true := by decide
    have e2 : (O == X) = false := by decide
    by_cases hlt : val c > st.1
    · simp [moveStep, hv, h1, hrec hv, h2, e1, e2, hlt]
    · simp [moveStep, hv, h1, hrec hv, h2, e1, e2, hlt]
  · simp [moveStep, hv, h]


theorem nextMove_X {fuel : Nat} {b : Board} (hb : Is3x3 b) (hm : OverMarks b)
    (hw : checkWin b = some Blank) (hf : blankCells b ≠ []) (hfuel : numBlank b ≤ fuel) :
    ∃ d l1 l2, blankCells b = l1 ++ d :: l2 ∧ nextMove fuel b X = some (place b d X) ∧
      (∀ y ∈ l1, V (place b d X) true < V (place b y X) true) ∧
      (∀ y ∈ l2, V (place b d X) true ≤ V (place b y X) true) := by
  have hrec : ∀ c ∈ allCells, index b c.1 c.2 = some Blank →
      minimax fuel (place b c X) true = some (place b c X, V (place b c X) true) := by
    intro c hc hidx
    apply minimax_eq_V _ _ _ (place_is3x3 hb hidx X) (place_overMarks hm hidx (Or.inl rfl))
    have := numBlank_place_lt (mem_blankCells.2 ⟨hc, hidx⟩) (v := X) (by decide)
    omega
  have hloop := foldlM_fixed
    (fun st : Int × (Nat × Nat) =>
      ({ board := b, bestScore := st.1, bestRow := st.2.1, bestCol := st.2.2 } : MoveState))
    (fun st (c : Nat × Nat) => moveStep fuel X false c.1 c.2 st)
    (fun st c => if (decide (index b c.1 c.2 = some Blank)) = true then
      (if V (place b c X) true < st.1 then (V (place b c X) true, c) else st) else st)
    allCells (MaxInt, (0, 0))
    (fun st c hc => moveStep_eq_X hb (fun c => V (place b c X) true) hc (hrec c hc) st)
  rw [foldl_cond (fun c => decide (index b c.1 c.2 = some Blank))
    (fun (st : Int × (Nat × Nat)) c =>
      if V (place b c X) true < st.1 then (V (place b c X) true, c) else st)] at hloop
  obtain ⟨d, l1, l2, e1, e2, e3, e4⟩ := pick_first (fun a s : Int => a < s)
    (fun c => V (place b c X) true)
    (fun a s y h1 h2 => lt_of_lt_of_le h1 (not_lt.1 h2)) (fun a b c h1 h2 => lt_trans h1 h2)
    hf MaxInt (0, 0)
    (by
      intro y hy
      have hy' := (mem_blankCells.1 hy).2
      have := (V_bounds (place_is3x3 hb hy' X) (place_overMarks hm hy' (Or.inl rfl)) true).2.2.2
      exact lt_of_le_of_lt this (by decide))
  have hd : index b d.1 d.2 = some Blank := by
    apply (mem_blankCells.1 _).2
    rw [e2]; simp
  refine ⟨d, l1, l2, e2, ?_, e3, fun y hy => not_lt.1 (e4 y hy)⟩
  have e1' : List.foldl (fun (st : Int × (Nat × Nat)) c =>
      if V (place b c X) true < st.1 then (V (place b c X) true, c) else st) (MaxInt, (0, 0))
      (List.filter (fun c => decide (index b c.1 c.2 = some Blank)) allCells)
      = (V (place b d X) true, d) := e1
  rw [e1'] at hloop
  have hX : (X == Blank) = false := by decide
  have hXX : (X == X) = true := by decide
  have hBB : (Blank != Blank) = false := by decide
  simp only [nextMove, hw, checkFull_eq hb, hf, forCells_eq, hX, hXX, hBB,
    Option.bind_eq_bind, Option.some_bind, Option.pure_def, decide_False, if_true, if_false,
    Bool.false_eq_true, hloop]
  exact place_of_blank hd X

theorem nextMove_O {fuel : Nat} {b : Board} (hb : Is3x3 b) (hm : OverMarks b)
    (hw : checkWin b = some Blank) (hf : blankCells b ≠ []) (hfuel : numBlank b ≤ fuel) :
    ∃ d l1 l2, blankCells b = l1 ++ d :: l2 ∧ nextMove fuel b O = some (place b d O) ∧
      (∀ y ∈ l1, V (place b y O) false < V (place b d O) false) ∧
      (∀ y ∈ l2, V (place b y O) false ≤ V (place b d O) false) := by
  have hrec : ∀ c ∈ allCells, index b c.1 c.2 = some Blank →
      minimax fuel (place b c O) false = some (place b c O, V (place b c O) false) := by
    intro c hc hidx
    apply minimax_eq_V _ _ _ (place_is3x3 hb hidx O) (place_overMarks hm hidx (Or.inr (Or.inr rfl)))
    have := numBlank_place_lt (mem_blankCells.2 ⟨hc, hidx⟩) (v := O) (by decide)
    omega
  have hloop := foldlM_fixed
    (fun st : Int × (Nat × Nat) =>
      ({ board := b, bestScore := st.1, bestRow := st.2.1, bestCol := st.2.2 } : MoveState))
    (fun st (c : Nat × Nat) => moveStep fuel O true c.1 c.2 st)
    (fun st c => if (decide (index b c.1 c.2 = some Blank)) = true then
      (if V (place b c O) false > st.1 then (V (place b c O) false, c) else st) else st)
    allCells (MinInt, (0, 0))
    (fun st c hc => moveStep_eq_O hb (fun c => V (place b c O) false) hc (hrec c hc) st)
  rw [foldl_cond (fun c => decide (index b c.1 c.2 = some Blank))
    (fun (st : Int × (Nat × Nat)) c =>
      if V (place b c O) false > st.1 then (V (place b c O) false, c) else st)] at hloop
  obtain ⟨d, l1, l2, e1, e2, e3, e4⟩ := pick_first (fun a s : Int => a > s)
    (fun c => V (place b c O) false)
    (fun a s y h1 h2 => lt_of_le_of_lt (not_lt.1 h2) h1) (fun a b c h1 h2 => lt_trans h2 h1)
    hf MinInt (0, 0)
    (by
      intro y hy
      have hy' := (mem_blankCells.1 hy).2
      have := (V_bounds (place_is3x3 hb hy' O) (place_overMarks hm hy' (Or.inr (Or.inr rfl))) false).2.2.1
      exact lt_of_lt_of_le (by decide) this)
  have hd : index b d.1 d.2 = some Blank := by
    apply (mem_blankCells.1 _).2
    rw [e2]; simp
  refine ⟨d, l1, l2, e2, ?_, e3, fun y hy => not_lt.1 (e4 y hy)⟩
  have e1' : List.foldl (fun (st : Int × (Nat × Nat)) c =>
      if V (place b c O) false > st.1 then (V (place b c O) false, c) else st) (MinInt, (0, 0))
      (List.filter (fun c => decide (index b c.1 c.2 = some Blank)) allCells)
      = (V (place b d O) false, d) := e1
  rw [e1'] at hloop
  have hX : (O == Blank) = false := by decide
  have hXX : (O == X) = false := by decide
  have hBB : (Blank != Blank) = false := by decide
  simp only [nextMove, hw, checkFull_eq hb, hf, forCells_eq, hX, hXX, hBB,
    Option.bind_eq_bind, Option.some_bind, Option.pure_def, decide_False, if_true, if_false,
    Bool.false_eq_true, hloop]
  exact place_of_blank hd O

theorem numBlank_le (b : Board) : numBlank b ≤ 9 :=
  List.length_filter_le _ allCells

theorem allCells_sorted : allCells.Pairwise scannedBefore := by
  simp [allCells, scannedBefore]

theorem scanned_mem {b : Board} {l1 l2 : List (Nat × Nat)} {d y : Nat × Nat}
    (h : blankCells b = l1 ++ d :: l2) (hy : y ∈ blankCells b) (hyd : scannedBefore y d) :
    y ∈ l1 := by
  have hp : (l1 ++ d :: l2).Pairwise scannedBefore := by
    rw [← h]; exact allCells_sorted.filter _
  rw [h] at hy
  rcases List.mem_append.1 hy with hy | hy
  · exact hy
  · exfalso
    have hp2 := (List.pairwise_append.1 hp).2.1
    rcases List.mem_cons.1 hy with rfl | hy
    · unfold scannedBefore at hyd; omega
    · have := (List.pairwise_cons.1 hp2).1 y hy
      unfold scannedBefore at hyd this; omega

theorem blank_of_full_false {b : Board} (hb : Is3x3 b) (hf : checkFull b = some false) :
    blankCells b ≠ [] := by
  rw [checkFull_eq hb] at hf
  simpa using hf

theorem assign_eq_place {b bij : Board} {i j : Nat} {p : BoardSpace}
    (h : assign b i j p = some bij) : bij = place b (i, j) p := by
  simp [place, h]

theorem index_blank_mem {b : Board} (hb : Is3x3 b) {i j : Nat}
    (h : index b i j = some Blank) : (i, j) ∈ blankCells b := by
  refine mem_blankCells.2 ⟨mem_allCells.2 ?_, h⟩
  unfold index at h
  cases hrow : b[i]? with
  | none => simp [hrow] at h
  | some row =>
    simp only [hrow] at h
    have h1 := (List.getElem?_eq_some.1 hrow).1
    have h2 := (List.getElem?_eq_some.1 h).1
    have h3 := hb.2 row (List.getElem?_mem hrow)
    rw [hb.1] at h1
    exact ⟨h1, by omega⟩

/-- The characterisation of `nextMove` shared by the claims about the move it makes. -/
theorem nextMove_spec {fuel : Nat} {b : Board} {p : BoardSpace} (hb : Is3x3 b)
    (hm : OverMarks b) (hw : checkWin b = some Blank) (hf : checkFull b = some false)
    (hp : p = X ∨ p = O) (hfuel : 9 ≤ fuel) :
    ∃ d, index b d.1 d.2 = some Blank ∧ nextMove fuel b p = some (place b d p) ∧
      ∀ i j bij, index b i j = some Blank → assign b i j p = some bij →
        ∃ s s', minimax fuel (place b d p) (p == X) = some (place b d p, s) ∧
          minimax fuel bij (p == X) = some (bij, s') ∧
          (p = X → s ≤ s' ∧ (scannedBefore (i, j) d → s < s')) ∧
          (p = O → s' ≤ s ∧ (scannedBefore (i, j) d → s' < s)) := by
  have hne := blank_of_full_false hb hf
  have hn := numBlank_le b
  have hpm : p = X ∨ p = Blank ∨ p = O := by
    rcases hp with h | h
    · exact Or.inl h
    · exact Or.inr (Or.inr h)
  have hpb : p ≠ Blank := by rcases hp with h | h <;> rw [h] <;> decide
  have hmm : ∀ c ∈ blankCells b, ∀ m,
      minimax fuel (place b c p) m = some (place b c p, V (place b c p) m) := by
    intro c hc m
    have hc' := (mem_blankCells.1 hc).2
    apply minimax_eq_V _ _ _ (place_is3x3 hb hc' p) (place_overMarks hm hc' hpm)
    have := numBlank_place_lt hc hpb
    omega
  rcases hp with rfl | rfl
  · obtain ⟨d, l1, l2, e, hnm, h1, h2⟩ := nextMove_X hb hm hw hne (by omega : numBlank b ≤ fuel)
    have hd : d ∈ blankCells b := by rw [e]; simp
    refine ⟨d, (mem_blankCells.1 hd).2, hnm, ?_⟩
    intro i j bij hij hbij
    have hc := index_blank_mem hb hij
    rw [assign_eq_place hbij]
    refine ⟨_, _, hmm d hd _, hmm (i, j) hc _, ?_, ?_⟩
    · intro _
      have hX : (X == X) = true := by decide
      rw [hX]
      constructor
      · rw [e] at hc
        rcases List.mem_append.1 hc with hc | hc
        · exact le_of_lt (h1 _ hc)
        · rcases List.mem_cons.1 hc with hc | hc
          · rw [hc]
          · exact h2 _ hc
      · intro hs
        exact h1 _ (scanned_mem e (index_blank_mem hb hij) hs)
    · intro h; exact absurd h (by decide)
  · obtain ⟨d, l1, l2, e, hnm, h1, h2⟩ := nextMove_O hb hm hw hne (by omega : numBlank b ≤ fuel)
    have hd : d ∈ blankCells b := by rw [e]; simp
    refine ⟨d, (mem_blankCells.1 hd).2, hnm, ?_⟩
    intro i j bij hij hbij
    have hc := index_blank_mem hb hij
    rw [assign_eq_place hbij]
    refine ⟨_, _, hmm d hd _, hmm (i, j) hc _, ?_, ?_⟩
    · intro h; exact absurd h (by decide)
    · intro _
      have hX : (O == X) = false := by decide
      rw [hX]
      constructor
      · rw [e] at hc
        rcases List.mem_append.1 hc with hc | hc
        · exact le_of_lt (h1 _ hc)
        · rcases List.mem_cons.1 hc with hc | hc
          · rw [hc]
          · exact h2 _ hc
      · intro hs
        exact h1 _ (scanned_mem e (index_blank_mem hb hij) hs)

/-! ## The text conversions -/

theorem char_toUpper_X (c : Char) : c.toUpper = 'X' ↔ c = 'X' ∨ c = 'x' := by
  constructor
  · intro h
    unfold Char.toUpper at h
    simp only at h
    split_ifs at h with hr
    · right
      have hc := Char.ofNat_toNat c
      generalize c.toNat = n at h hr hc
      obtain ⟨h1, h2⟩ := hr
      interval_cases n <;> first | exact absurd h (by decide) | exact hc.symm
    · exact Or.inl h
  · rintro (rfl | rfl) <;> decide

theorem char_toUpper_O (c : Char) : c.toUpper = 'O' ↔ c = 'O' ∨ c = 'o' := by
  constructor
  · intro h
    unfold Char.toUpper at h
    simp only at h
    split_ifs at h with hr
    · right
      have hc := Char.ofNat_toNat c
      generalize c.toNat = n at h hr hc
      obtain ⟨h1, h2⟩ := hr
      interval_cases n <;> first | exact absurd h (by decide) | exact hc.symm
    · exact Or.inl h
  · rintro (rfl | rfl) <;> decide

theorem toUpper_eq_single (s : String) (u : Char) :
    toUpper s = String.singleton u ↔ ∃ c, s = String.singleton c ∧ c.toUpper = u := by
  unfold toUpper
  constructor
  · intro h
    have h' : s.data.map Char.toUpper = [u] := congrArg String.data h
    match hs : s.data, h' with
    | [c], h' =>
      refine ⟨c, ?_, by simpa using h'⟩
      exact String.ext hs
  · rintro ⟨c, rfl, rfl⟩
    rfl

theorem toUpper_X (s : String) : toUpper s = "X" ↔ s = "X" ∨ s = "x" := by
  have := toUpper_eq_single s 'X'
  have e : String.singleton 'X' = "X" := rfl
  rw [e] at this
  rw [this]
  constructor
  · rintro ⟨c, rfl, hc⟩
    rcases (char_toUpper_X c).1 hc with rfl | rfl
    · exact Or.inl rfl
    · exact Or.inr rfl
  · rintro (rfl | rfl)
    · exact ⟨'X', rfl, by decide⟩
    · exact ⟨'x', rfl, by decide⟩

theorem toUpper_O (s : String) : toUpper s = "O" ↔ s = "O" ∨ s = "o" := by
  have := toUpper_eq_single s 'O'
  have e : String.singleton 'O' = "O" := rfl
  rw [e] at this
  rw [this]
  constructor
  · rintro ⟨c, rfl, hc⟩
    rcases (char_toUpper_O c).1 hc with rfl | rfl
    · exact Or.inl rfl
    · exact Or.inr rfl
  · rintro (rfl | rfl)
    · exact ⟨'O', rfl, by decide⟩
    · exact ⟨'o', rfl, by decide⟩

theorem toCode_toSpace (s : String) : toCode (toSpace s) = normalizeCell s := by
  unfold toSpace normalizeCell
  simp only [toUpper_X, toUpper_O]
  split_ifs <;> simp [toCode, X, O, Blank]

theorem toSpace_toCode {v : BoardSpace} (hv : v = X ∨ v = Blank ∨ v = O) :
    toSpace (toCode v) = v := by
  rcases hv with rfl | rfl | rfl
  · simp [toCode, toSpace, toUpper_X, X, O]
  · simp [toCode, toSpace, toUpper_X, toUpper_O, X, O, Blank]
  · simp [toCode, toSpace, toUpper_X, toUpper_O, X, O]

theorem toBoard_lit (s0 s1 s2 s3 s4 s5 s6 s7 s8 : String) :
    toBoard [[s0, s1, s2], [s3, s4, s5], [s6, s7, s8]] =
      some [[toSpace s0, toSpace s1, toSpace s2], [toSpace s3, toSpace s4, toSpace s5],
        [toSpace s6, toSpace s7, toSpace s8]] := rfl

theorem toBoardStrings_lit (a0 a1 a2 a3 a4 a5 a6 a7 a8 : BoardSpace) :
    toBoardStrings [[a0, a1, a2], [a3, a4, a5], [a6, a7, a8]] =
      some [[toCode a0, toCode a1, toCode a2], [toCode a3, toCode a4, toCode a5],
        [toCode a6, toCode a7, toCode a8]] := rfl

theorem toCode_code (v : BoardSpace) : toCode v = "X" ∨ toCode v = "O" ∨ toCode v = "_" := by
  unfold toCode
  split_ifs
  · exact Or.inl rfl
  · exact Or.inr (Or.inl rfl)
  · exact Or.inr (Or.inr rfl)

theorem checkDims_eq (g : List (List String)) : checkDims g = some (decide (Is3x3 g)) := by
  unfold checkDims
  by_cases hl : g.length = 3
  · obtain ⟨r0, r1, r2, rfl⟩ := list_len3 hl
    simp only [List.length_cons, List.length_nil, bne_self_eq_false, Bool.false_eq_true,
      if_false, List.range_succ, List.range_zero, List.nil_append, List.cons_append,
      List.allM, List.getElem?_cons_zero, List.getElem?_cons_succ, Option.bind_eq_bind,
      Option.some_bind, Option.pure_def, Is3x3, List.mem_cons, List.mem_singleton,
      forall_eq_or_imp, forall_eq, List.not_mem_nil, zero_add, Nat.reduceAdd]
    cases h0 : (r0.length != 3) <;> cases h1 : (r1.length != 3) <;>
      cases h2 : (r2.length != 3) <;> simp_all
  · have : (g.length != 3) = true := by simpa using hl
    simp [this, Is3x3, hl]

theorem foldlM_none {σ α : Type} (f : σ → α → Option σ) {c : α} (hc : ∀ s, f s c = none) :
    ∀ (l : List α) (init : σ), c ∈ l → l.foldlM f init = none
  | [], _, h => by cases h
  | x :: l, init, h => by
    simp only [List.foldlM_cons, Option.bind_eq_bind]
    cases hx : f init x with
    | none => rfl
    | some s' =>
      simp only [Option.some_bind]
      rcases List.mem_cons.1 h with rfl | h'
      · rw [hc] at hx; cases hx
      · exact foldlM_none f hc l s' h'

theorem foldlM_exists {σ α : Type} (f : σ → α → Option σ) (I : σ → Prop) :
    ∀ (l : List α) (init : σ), I init →
      (∀ s x, x ∈ l → I s → ∃ s', f s x = some s' ∧ I s') →
      ∃ r, l.foldlM f init = some r ∧ I r
  | [], init, hi, _ => ⟨init, rfl, hi⟩
  | x :: l, init, hi, h => by
    obtain ⟨s', h1, h2⟩ := h init x (List.mem_cons_self _ _) hi
    simp only [List.foldlM_cons, h1, Option.bind_eq_bind, Option.some_bind]
    exact foldlM_exists f I l s' h2 (fun s y hy => h s y (List.mem_cons_of_mem _ hy))

theorem toBoard_block (g : List (List String)) (s0 s1 s2 s3 s4 s5 s6 s7 s8 : String)
    (h0 : index g 0 0 = some s0) (h1 : index g 0 1 = some s1) (h2 : index g 0 2 = some s2)
    (h3 : index g 1 0 = some s3) (h4 : index g 1 1 = some s4) (h5 : index g 1 2 = some s5)
    (h6 : index g 2 0 = some s6) (h7 : index g 2 1 = some s7) (h8 : index g 2 2 = some s8) :
    toBoard g = toBoard [[s0, s1, s2], [s3, s4, s5], [s6, s7, s8]] := by
  rw [toBoard_lit]
  simp only [toBoard, forCells_eq, allCells, List.foldlM_cons, List.foldlM_nil, h0, h1, h2, h3,
    h4, h5, h6, h7, h8, Option.bind_eq_bind, Option.some_bind, Option.pure_def]
  rfl

theorem toBoard_eq_none_iff (g : List (List String)) :
    toBoard g = none ↔ ∃ i < 3, ∃ j < 3, index g i j = none := by
  constructor
  · intro h
    by_contra hne
    have hall : ∀ i < 3, ∀ j < 3, ∃ s, index g i j = some s := by
      intro i hi j hj
      cases hij : index g i j with
      | none => exact absurd ⟨i, hi, j, hj, hij⟩ hne
      | some s => exact ⟨s, rfl⟩
    obtain ⟨s0, h0⟩ := hall 0 (by decide) 0 (by decide)
    obtain ⟨s1, h1⟩ := hall 0 (by decide) 1 (by decide)
    obtain ⟨s2, h2⟩ := hall 0 (by decide) 2 (by decide)
    obtain ⟨s3, h3⟩ := hall 1 (by decide) 0 (by decide)
    obtain ⟨s4, h4⟩ := hall 1 (by decide) 1 (by decide)
    obtain ⟨s5, h5⟩ := hall 1 (by decide) 2 (by decide)
    obtain ⟨s6, h6⟩ := hall 2 (by decide) 0 (by decide)
    obtain ⟨s7, h7⟩ := hall 2 (by decide) 1 (by decide)
    obtain ⟨s8, h8⟩ := hall 2 (by decide) 2 (by decide)
    rw [toBoard_block g s0 s1 s2 s3 s4 s5 s6 s7 s8 h0 h1 h2 h3 h4 h5 h6 h7 h8, toBoard_lit] at h
    cases h
  · rintro ⟨i, hi, j, hj, hij⟩
    unfold toBoard
    rw [forCells_eq]
    have hmem : (i, j) ∈ allCells := mem_allCells.2 ⟨hi, hj⟩
    refine foldlM_none _ ?_ _ _ hmem
    intro s
    show (index g i j).bind _ = none
    rw [hij]; rfl

theorem toBoard_some {g : List (List String)} {b : Board} (h : toBoard g = some b) :
    ∃ s0 s1 s2 s3 s4 s5 s6 s7 s8,
      index g 0 0 = some s0 ∧ index g 0 1 = some s1 ∧ index g 0 2 = some s2 ∧
      index g 1 0 = some s3 ∧ index g 1 1 = some s4 ∧ index g 1 2 = some s5 ∧
      index g 2 0 = some s6 ∧ index g 2 1 = some s7 ∧ index g 2 2 = some s8 ∧
      b = [[toSpace s0, toSpace s1, toSpace s2], [toSpace s3, toSpace s4, toSpace s5],
        [toSpace s6, toSpace s7, toSpace s8]] := by
  have hall : ∀ i < 3, ∀ j < 3, ∃ s, index g i j = some s := by
    intro i hi j hj
    cases hij : index g i j with
    | none =>
      have := (toBoard_eq_none_iff g).2 ⟨i, hi, j, hj, hij⟩
      rw [this] at h; cases h
    | some s => exact ⟨s, rfl⟩
  obtain ⟨s0, h0⟩ := hall 0 (by decide) 0 (by decide)
  obtain ⟨s1, h1⟩ := hall 0 (by decide) 1 (by decide)
  obtain ⟨s2, h2⟩ := hall 0 (by decide) 2 (by decide)
  obtain ⟨s3, h3⟩ := hall 1 (by decide) 0 (by decide)
  obtain ⟨s4, h4⟩ := hall 1 (by decide) 1 (by decide)
  obtain ⟨s5, h5⟩ := hall 1 (by decide) 2 (by decide)
  obtain ⟨s6, h6⟩ := hall 2 (by decide) 0 (by decide)
  obtain ⟨s7, h7⟩ := hall 2 (by decide) 1 (by decide)
  obtain ⟨s8, h8⟩ := hall 2 (by decide) 2 (by decide)
  rw [toBoard_block g s0 s1 s2 s3 s4 s5 s6 s7 s8 h0 h1 h2 h3 h4 h5 h6 h7 h8, toBoard_lit] at h
  simp only [Option.some.injEq] at h
  exact ⟨s0, s1, s2, s3, s4, s5, s6, s7, s8, h0, h1, h2, h3, h4, h5, h6, h7, h8, h.symm⟩

theorem moveReq_badRequest {g : List (List String)} (hg : ¬ Is3x3 g) (fuel : Nat)
    (p : BoardSpace) : moveReq fuel g p = some Reply.badRequest := by
  simp [moveReq, checkDims_eq, hg]

/-! ## Totality on boards of arbitrary integers -/

theorem minimax_total : ∀ (fuel : Nat) (b : Board) (m : Bool), Is3x3 b → numBlank b < fuel →
    ∃ v, minimax fuel b m = some (b, v) := by
  intro fuel
  induction fuel with
  | zero => intro b m _ h; exact absurd h (Nat.not_lt_zero _)
  | succ fuel ih =>
    intro b m hb hn
    obtain ⟨w, hw⟩ := checkWin_total hb
    simp only [minimax, hw, checkFull_eq hb, Option.bind_eq_bind, Option.some_bind,
      Option.pure_def]
    by_cases h1 : (w != 0) = true
    · exact ⟨w, by simp [h1]⟩
    · by_cases h2 : blankCells b = []
      · exact ⟨0, by simp [h1, h2]⟩
      · have hrec : ∀ (v : BoardSpace) (m' : Bool), v ≠ Blank →
            ∀ c ∈ allCells, index b c.1 c.2 = some Blank →
            minimax fuel (place b c v) m' = some (place b c v,
              ((minimax fuel (place b c v) m').map Prod.snd).getD 0) := by
          intro v m' hv c hc hidx
          have hlt := numBlank_place_lt (mem_blankCells.2 ⟨hc, hidx⟩) hv
          obtain ⟨r, hr⟩ := ih (place b c v) m' (place_is3x3 hb hidx v) (by omega)
          rw [hr]; rfl
        cases m with
        | true =>
          have hloop := foldlM_fixed (fun best : Int => (b, best))
            (fun st (c : Nat × Nat) => maxStep (fun b => minimax fuel b false) c.1 c.2 st)
            _ allCells MinInt
            (fun best c hc => maxStep_eq hb
              (fun c => ((minimax fuel (place b c O) false).map Prod.snd).getD 0) hc
              (hrec O false (by decide) c hc) best)
          simp only [h1, h2, forCells_eq, hloop, if_false, if_true, decide_False,
            Bool.false_eq_true]
          exact ⟨_, rfl⟩
        | false =>
          have hloop := foldlM_fixed (fun best : Int => (b, best))
            (fun st (c : Nat × Nat) => minStep (fun b => minimax fuel b true) c.1 c.2 st)
            _ allCells MaxInt
            (fun best c hc => minStep_eq hb
              (fun c => ((minimax fuel (place b c X) true).map Prod.snd).getD 0) hc
              (hrec X true (by decide) c hc) best)
          simp only [h1, h2, forCells_eq, hloop, if_false, if_true, decide_False,
            Bool.false_eq_true]
          exact ⟨_, rfl⟩

theorem moveStep_total {fuel : Nat} {b : Board} (hb : Is3x3 b) (hn : numBlank b ≤ fuel)
    {p : BoardSpace} (hp : p ≠ Blank) (mx : Bool) {c : Nat × Nat} (hc : c ∈ allCells)
    (st : MoveState) (hst : st.board = b ∧ st.bestRow < 3 ∧ st.bestCol < 3) :
    ∃ st', moveStep fuel p mx c.1 c.2 st = some st' ∧
      (st'.board = b ∧ st'.bestRow < 3 ∧ st'.bestCol < 3) := by
  obtain ⟨board, s, r, k⟩ := st
  simp only at hst
  obtain ⟨rfl, hr, hk⟩ := hst
  obtain ⟨v, hv⟩ := index_isSome hb (mem_allCells.1 hc).1 (mem_allCells.1 hc).2
  by_cases h : v = Blank
  · subst h
    have h1 := place_of_blank hv p
    have h2 : assign (place board c p) c.1 c.2 Blank = some board := by
      rw [assign_assign h1]; exact assign_self hv
    have hlt := numBlank_place_lt (mem_blankCells.2 ⟨hc, hv⟩) hp
    obtain ⟨sc, hsc⟩ := minimax_total fuel (place board c p) (!mx) (place_is3x3 hb hv p)
      (by omega)
    simp only [moveStep, hv, h1, hsc, h2, Option.bind_eq_bind, Option.some_bind,
      Option.pure_def, beq_self_eq_true, if_true]
    refine ⟨_, rfl, rfl, ?_⟩
    split_ifs
    · exact ⟨(mem_allCells.1 hc).1, (mem_allCells.1 hc).2⟩
    · exact ⟨hr, hk⟩
  · exact ⟨{ board := board, bestScore := s, bestRow := r, bestCol := k },
      by simp [moveStep, hv, h], rfl, hr, hk⟩

theorem nextMove_total {fuel : Nat} {b : Board} (hb : Is3x3 b) (hn : numBlank b ≤ fuel)
    (p : BoardSpace) : ∃ b', nextMove fuel b p = some b' := by
  by_cases hp : p = Blank
  · exact ⟨b, by subst hp; simp [nextMove]⟩
  · have hp' : (p == Blank) = false := by simpa using hp
    obtain ⟨w, hw⟩ := checkWin_total hb
    by_cases hwb : ¬ w = Blank
    · exact ⟨b, by simp [nextMove, hp', hw, hwb]⟩
    · rw [not_not] at hwb
      subst hwb
      have hwb : (Blank != Blank) = false := by decide
      by_cases hf : blankCells b = []
      · exact ⟨b, by simp [nextMove, hp', hw, hwb, checkFull_eq hb, hf]⟩
      · have key : ∀ (s0 : Int) (mx : Bool), ∃ st,
            forCells (moveStep fuel p mx)
              { board := b, bestScore := s0, bestRow := 0, bestCol := 0 } = some st ∧
            (st.board = b ∧ st.bestRow < 3 ∧ st.bestCol < 3) := by
          intro s0 mx
          rw [forCells_eq]
          exact foldlM_exists _ (fun st => st.board = b ∧ st.bestRow < 3 ∧ st.bestCol < 3)
            allCells { board := b, bestScore := s0, bestRow := 0, bestCol := 0 }
            ⟨rfl, Nat.zero_lt_succ 2, Nat.zero_lt_succ 2⟩
            (fun st c hc hst => moveStep_total hb hn hp mx hc st hst)
        have fin : ∀ st : MoveState, (st.board = b ∧ st.bestRow < 3 ∧ st.bestCol < 3) →
            ∃ b', assign st.board st.bestRow st.bestCol p = some b' := by
          rintro st ⟨h1, h2, h3⟩
          rw [h1]; exact assign_isSome hb h2 h3 p
        by_cases hX : (p == X) = true
        · obtain ⟨st, h1, h2⟩ := key MaxInt false
          obtain ⟨b', hb'⟩ := fin st h2
          exact ⟨b', by simp [nextMove, hp', hw, hwb, checkFull_eq hb, hf, hX, h1, hb']⟩
        · obtain ⟨st, h1, h2⟩ := key MinInt true
          obtain ⟨b', hb'⟩ := fin st h2
          exact ⟨b', by simp [nextMove, hp', hw, hwb, checkFull_eq hb, hf, hX, h1, hb']⟩

theorem nextMove_blank (fuel : Nat) (b : Board) : nextMove fuel b Blank = some b := by
  simp [nextMove]

theorem nextMove_terminal (fuel : Nat) (b : Board) (p : BoardSpace) (hb : Is3x3 b)
    (h : (∃ w, checkWin b = some w ∧ w ≠ Blank) ∨ checkFull b = some true) :
    nextMove fuel b p = some b := by
  by_cases hp : p = Blank
  · subst hp; exact nextMove_blank fuel b
  · have hp' : (p == Blank) = false := by simpa using hp
    obtain ⟨w, hw⟩ := checkWin_total hb
    by_cases hwb : w = Blank
    · subst hwb
      rcases h with ⟨w', hw', hne⟩ | h
      · rw [hw] at hw'
        simp only [Option.some.injEq] at hw'
        exact absurd hw'.symm hne
      · simp [nextMove, hp', hw, h]
    · simp [nextMove, hp', hw, hwb]

/-! ## Winning moves -/

theorem V_of_win {b : Board} {w : BoardSpace} (hw : checkWin b = some w) (hne : w ≠ Blank)
    (m : Bool) : V b m = w := by
  rw [V_eq, hw, Option.getD_some, if_pos hne]

/-- The move of `nextMove` in terms of the reference value: the chosen cell is optimal and
every `Blank` cell scanned before it is strictly worse. -/
theorem nextMove_spec_V {fuel : Nat} {b : Board} {p : BoardSpace} (hb : Is3x3 b)
    (hm : OverMarks b) (hw : checkWin b = some Blank) (hf : checkFull b = some false)
    (hp : p = X ∨ p = O) (hfuel : 9 ≤ fuel) :
    ∃ d, d ∈ blankCells b ∧ nextMove fuel b p = some (place b d p) ∧
      ∀ c ∈ blankCells b,
        (p = X → V (place b d p) true ≤ V (place b c p) true ∧
          (scannedBefore c d → V (place b d p) true < V (place b c p) true)) ∧
        (p = O → V (place b c p) false ≤ V (place b d p) false ∧
          (scannedBefore c d → V (place b c p) false < V (place b d p) false)) := by
  have hne := blank_of_full_false hb hf
  have hn := numBlank_le b
  rcases hp with rfl | rfl
  · obtain ⟨d, l1, l2, e, hnm, h1, h2⟩ := nextMove_X hb hm hw hne (by omega : numBlank b ≤ fuel)
    have hd : d ∈ blankCells b := by rw [e]; simp
    refine ⟨d, hd, hnm, ?_⟩
    intro c hc
    refine ⟨fun _ => ⟨?_, fun hs => h1 _ (scanned_mem e hc hs)⟩, fun h => absurd h (by decide)⟩
    rw [e] at hc
    rcases List.mem_append.1 hc with hc | hc
    · exact le_of_lt (h1 _ hc)
    · rcases List.mem_cons.1 hc with hc | hc
      · rw [hc]
      · exact h2 _ hc
  · obtain ⟨d, l1, l2, e, hnm, h1, h2⟩ := nextMove_O hb hm hw hne (by omega : numBlank b ≤ fuel)
    have hd : d ∈ blankCells b := by rw [e]; simp
    refine ⟨d, hd, hnm, ?_⟩
    intro c hc
    refine ⟨fun h => absurd h (by decide), fun _ => ⟨?_, fun hs => h1 _ (scanned_mem e hc hs)⟩⟩
    rw [e] at hc
    rcases List.mem_append.1 hc with hc | hc
    · exact le_of_lt (h1 _ hc)
    · rcases List.mem_cons.1 hc with hc | hc
      · rw [hc]
      · exact h2 _ hc

theorem scanned_trichotomy (c d : Nat × Nat) : scannedBefore c d ∨ c = d ∨ scannedBefore d c := by
  obtain ⟨c1, c2⟩ := c
  obtain ⟨d1, d2⟩ := d
  unfold scannedBefore
  simp only [Prod.mk.injEq]
  omega

/-- When `p` can win at once at the `Blank` cell `c`, the move of `nextMove` has the winning
value; and it is the move at `c` when no `Blank` cell scanned before `c` has that value. -/
theorem nextMove_win {fuel : Nat} {b : Board} {p : BoardSpace} (hb : Is3x3 b)
    (hm : OverMarks b) (hw : checkWin b = some Blank) (hf : checkFull b = some false)
    (hp : p = X ∨ p = O) (hfuel : 9 ≤ fuel) {c : Nat × Nat} (hc : c ∈ blankCells b)
    (hwin : checkWin (place b c p) = some p) :
    ∃ d, d ∈ blankCells b ∧ nextMove fuel b p = some (place b d p) ∧
      V (place b d p) (p == X) = p ∧
      ((∀ y ∈ blankCells b, scannedBefore y c → V (place b y p) (p == X) ≠ p) → d = c) := by
  obtain ⟨d, hd, hnm, h⟩ := nextMove_spec_V hb hm hw hf hp hfuel
  have hpb : p ≠ Blank := by rcases hp with h | h <;> rw [h] <;> decide
  have hpm : p = X ∨ p = Blank ∨ p = O := by
    rcases hp with h | h
    · exact Or.inl h
    · exact Or.inr (Or.inr h)
  have hVc : ∀ m, V (place b c p) m = p := fun m => V_of_win hwin hpb m
  have hd' := (mem_blankCells.1 hd).2
  have hr := V_range _ (place b d p) (p == X) (le_refl _) (place_is3x3 hb hd' p)
    (place_overMarks hm hd' hpm)
  have hVd : V (place b d p) (p == X) = p := by
    rcases hp with rfl | rfl
    · have e : (X == X) = true := by decide
      rw [e] at hr ⊢
      have := ((h c hc).1 rfl).1
      rw [hVc] at this
      rcases hr with h' | h' | h' <;> rw [h'] at this ⊢
      · exact absurd this (by decide)
      · exact absurd this (by decide)
    · have e : (O == X) = false := by decide
      rw [e] at hr ⊢
      have := ((h c hc).2 rfl).1
      rw [hVc] at this
      rcases hr with h' | h' | h' <;> rw [h'] at this ⊢
      · exact absurd this (by decide)
      · exact absurd this (by decide)
  refine ⟨d, hd, hnm, hVd, ?_⟩
  intro hbefore
  rcases scanned_trichotomy d c with hs | hs | hs
  · exact absurd hVd (hbefore d hd hs)
  · exact hs
  · exfalso
    rcases hp with rfl | rfl
    · have e : (X == X) = true := by decide
      rw [e] at hVd
      have := ((h c hc).1 rfl).2 hs
      rw [hVc, hVd] at this
      exact lt_irrefl _ this
    · have e : (O == X) = false := by decide
      rw [e] at hVd
      have := ((h c hc).2 rfl).2 hs
      rw [hVc, hVd] at this
      exact lt_irrefl _ this

theorem nextMove_first_blank_win (fuel : Nat) (b : Board) (p : BoardSpace) (c : Nat × Nat)
    (l : List (Nat × Nat)) (hb : Is3x3 b)
    (hm : OverMarks b) (hw : checkWin b = some Blank) (hf : checkFull b = some false)
    (hp : p = X ∨ p = O) (hfuel : 9 ≤ fuel)
    (hc : blankCells b = c :: l) (hwin : checkWin (place b c p) = some p) :
    nextMove fuel b p = some (place b c p) := by
  have hcm : c ∈ blankCells b := by rw [hc]; exact List.mem_cons_self _ _
  obtain ⟨d, _, hnm, _, hdc⟩ := nextMove_win hb hm hw hf hp hfuel hcm hwin
  rw [hnm, hdc]
  intro y hy hs
  exfalso
  have := scanned_mem (show blankCells b = [] ++ c :: l from by simpa using hc) hy hs
  cases this

/-! ## Colour symmetry -/

theorem swapCell_swapCell (v : BoardSpace) : swapCell (swapCell v) = v := by
  unfold swapCell
  by_cases h1 : v = X
  · subst h1; decide
  · by_cases h2 : v = O
    · subst h2; decide
    · simp [h1, h2]

theorem swapCell_inj (a b : BoardSpace) : swapCell a = swapCell b ↔ a = b := by
  constructor
  · intro h
    have := congrArg swapCell h
    rwa [swapCell_swapCell, swapCell_swapCell] at this
  · intro h; rw [h]

theorem swapCell_eq_blank (a : BoardSpace) : swapCell a = Blank ↔ a = Blank := by
  have h : swapCell Blank = Blank := by decide
  rw [← h, swapCell_inj]
  exact ⟨fun e => by rw [e, h], fun e => by rw [e, h]⟩

theorem swapCell_mark {v : BoardSpace} (hv : v = X ∨ v = Blank ∨ v = O) :
    swapCell v = -v ∧ (swapCell v = X ∨ swapCell v = Blank ∨ swapCell v = O) := by
  rcases hv with rfl | rfl | rfl <;> decide

theorem swap_lit (a0 a1 a2 a3 a4 a5 a6 a7 a8 : BoardSpace) :
    swap [[a0, a1, a2], [a3, a4, a5], [a6, a7, a8]] =
      [[swapCell a0, swapCell a1, swapCell a2], [swapCell a3, swapCell a4, swapCell a5],
        [swapCell a6, swapCell a7, swapCell a8]] := rfl

theorem swap_is3x3 {b : Board} (hb : Is3x3 b) : Is3x3 (swap b) := by
  obtain ⟨a0, a1, a2, a3, a4, a5, a6, a7, a8, rfl⟩ := hb.lit
  exact ⟨rfl, by simp [swap]⟩

theorem swap_overMarks {b : Board} (hm : OverMarks b) : OverMarks (swap b) := by
  intro r hr v hv
  obtain ⟨r0, hr0, rfl⟩ := List.mem_map.1 hr
  obtain ⟨v0, hv0, rfl⟩ := List.mem_map.1 hv
  exact (swapCell_mark (hm r0 hr0 v0 hv0)).2

theorem index_swap (b : Board) (i j : Nat) :
    index (swap b) i j = (index b i j).map swapCell := by
  unfold index swap
  rw [List.getElem?_map]
  cases b[i]? with
  | none => rfl
  | some row => simp [List.getElem?_map]

theorem blankCells_swap (b : Board) : blankCells (swap b) = blankCells b := by
  unfold blankCells
  apply List.filter_congr
  intro c _
  rw [index_swap]
  cases h : index b c.1 c.2 with
  | none => simp
  | some v => simp [swapCell_eq_blank]

theorem checkWin_swap {b : Board} (hb : Is3x3 b) {w : BoardSpace} (hw : checkWin b = some w) :
    checkWin (swap b) = some (swapCell w) := by
  obtain ⟨a0, a1, a2, a3, a4, a5, a6, a7, a8, rfl⟩ := hb.lit
  rw [checkWin_lit] at hw
  simp only [Option.some.injEq] at hw
  subst hw
  rw [swap_lit, checkWin_lit]
  simp only [swapCell_inj, ne_eq, swapCell_eq_blank]
  split_ifs <;> rfl

theorem place_swap {b : Board} (hb : Is3x3 b) {c : Nat × Nat} (hc : c ∈ allCells)
    (v : BoardSpace) : place (swap b) c (swapCell v) = swap (place b c v) := by
  obtain ⟨a0, a1, a2, a3, a4, a5, a6, a7, a8, rfl⟩ := hb.lit
  simp only [allCells, List.mem_cons, List.mem_singleton, List.not_mem_nil, or_false] at hc
  rcases hc with rfl | rfl | rfl | rfl | rfl | rfl | rfl | rfl | rfl <;> rfl

theorem foldl_min_neg (l : List Int) (a : Int) :
    (l.map fun x => -x).foldl min (-a) = -(l.foldl max a) := by
  induction l generalizing a with
  | nil => rfl
  | cons x l ih =>
    simp only [List.map_cons, List.foldl_cons]
    rw [← ih (max a x)]
    congr 1
    rcases le_total a x with h | h
    · rw [max_eq_right h, min_eq_right (neg_le_neg h)]
    · rw [max_eq_left h, min_eq_left (neg_le_neg h)]

theorem minOf_neg (l : List Int) : minOf (l.map fun x => -x) = -maxOf l := by
  cases l with
  | nil => rfl
  | cons x xs => exact foldl_min_neg xs x

theorem maxOf_neg (l : List Int) : maxOf (l.map fun x => -x) = -minOf l := by
  have h := minOf_neg (l.map fun x => -x)
  rw [List.map_map] at h
  have e : ((fun x : Int => -x) ∘ fun x => -x) = id := by funext x; simp
  rw [e, List.map_id] at h
  rw [h, neg_neg]

theorem V_swap : ∀ (n : Nat) (b : Board) (m : Bool), numBlank b ≤ n → Is3x3 b → OverMarks b →
    V (swap b) (!m) = -(V b m) := by
  intro n
  induction n with
  | zero =>
    intro b m hn hb hm
    obtain ⟨w, hw⟩ := checkWin_total hb
    have hnil : blankCells b = [] := List.eq_nil_of_length_eq_zero (Nat.le_zero.1 hn)
    have hwm := checkWin_mark hb hm hw
    rw [V_eq, V_eq b, checkWin_swap hb hw, hw, Option.getD_some, Option.getD_some,
      blankCells_swap, hnil]
    by_cases h : w = Blank
    · subst h; simp [show swapCell Blank = Blank from by decide]
    · have hs : swapCell w ≠ Blank := fun e => h ((swapCell_eq_blank w).1 e)
      rw [if_pos hs, if_pos h]
      exact (swapCell_mark hwm).1
  | succ n ih =>
    intro b m hn hb hm
    obtain ⟨w, hw⟩ := checkWin_total hb
    have hwm := checkWin_mark hb hm hw
    rw [V_eq, V_eq b, checkWin_swap hb hw, hw, Option.getD_some, Option.getD_some,
      blankCells_swap]
    by_cases h : w = Blank
    · subst h
      by_cases h2 : blankCells b = []
      · simp [h2, show swapCell Blank = Blank from by decide]
      · have hrec : ∀ (v : BoardSpace) (m' : Bool), v = X ∨ v = O → ∀ c ∈ blankCells b,
            V (place (swap b) c (swapCell v)) (!m') = -(V (place b c v) m') := by
          intro v m' hv c hc
          have hc' := mem_blankCells.1 hc
          have hvb : v ≠ Blank := by rcases hv with h | h <;> rw [h] <;> decide
          have hvm : v = X ∨ v = Blank ∨ v = O := by
            rcases hv with h | h
            · exact Or.inl h
            · exact Or.inr (Or.inr h)
          rw [place_swap hb hc'.1]
          apply ih _ _ _ (place_is3x3 hb hc'.2 v) (place_overMarks hm hc'.2 hvm)
          have := numBlank_place_lt hc hvb
          omega
        have eB : swapCell Blank = Blank := by decide
        have eX : swapCell O = X := by decide
        have eO : swapCell X = O := by decide
        simp only [eB, ne_eq, not_true_eq_false, if_false, h2]
        cases m with
        | true =>
          simp only [Bool.not_true, Bool.false_eq_true, if_false, if_true]
          rw [← minOf_neg, List.map_map]
          congr 1
          apply List.map_congr_left
          intro c hc
          have := hrec O false (Or.inr rfl) c hc
          rw [eX] at this
          exact this
        | false =>
          simp only [Bool.not_false, Bool.false_eq_true, if_false, if_true]
          rw [← maxOf_neg, List.map_map]
          congr 1
          apply List.map_congr_left
          intro c hc
          have := hrec X true (Or.inl rfl) c hc
          rw [eO] at this
          exact this
    · have hs : swapCell w ≠ Blank := fun e => h ((swapCell_eq_blank w).1 e)
      rw [if_pos hs, if_pos h]
      exact (swapCell_mark hwm).1

/-! ## A certified bound on the reference value -/

theorem checkWin_winnerOf (a0 a1 a2 a3 a4 a5 a6 a7 a8 : BoardSpace) :
    checkWin [[a0, a1, a2], [a3, a4, a5], [a6, a7, a8]] = some (winnerOf a0 a1 a2 a3 a4 a5 a6 a7 a8) :=
  checkWin_lit a0 a1 a2 a3 a4 a5 a6 a7 a8

theorem mem_blankCells_lit (a0 a1 a2 a3 a4 a5 a6 a7 a8 : BoardSpace) (i j : Nat)
    (v : BoardSpace) (hi : i < 3) (hj : j < 3)
    (hidx : index [[a0, a1, a2], [a3, a4, a5], [a6, a7, a8]] i j = some v) (hv : v = Blank) :
    (i, j) ∈ blankCells [[a0, a1, a2], [a3, a4, a5], [a6, a7, a8]] :=
  mem_blankCells.2 ⟨mem_allCells.2 ⟨hi, hj⟩, by rw [hidx, hv]⟩

/-- The test `atLeast` is sound: when it succeeds, `k` is at most the reference value. -/
theorem atLeast_sound (k : Int) : ∀ (n : Nat) (m : Bool) (a0 a1 a2 a3 a4 a5 a6 a7 a8 : BoardSpace),
    atLeast k n m a0 a1 a2 a3 a4 a5 a6 a7 a8 = true →
    k ≤ V [[a0, a1, a2], [a3, a4, a5], [a6, a7, a8]] m := by
  intro n
  induction n with
  | zero =>
    intro m a0 a1 a2 a3 a4 a5 a6 a7 a8 h
    rw [V_eq, checkWin_winnerOf, Option.getD_some]
    unfold atLeast at h
    by_cases hw : winnerOf a0 a1 a2 a3 a4 a5 a6 a7 a8 ≠ Blank
    · rw [if_pos hw] at h ⊢
      exact of_decide_eq_true h
    · rw [if_neg hw] at h ⊢
      rw [Bool.and_eq_true] at h
      rw [if_pos ((blankCells_lit a0 a1 a2 a3 a4 a5 a6 a7 a8).2 (of_decide_eq_true h.2))]
      exact of_decide_eq_true h.1
  | succ n ih =>
    intro m a0 a1 a2 a3 a4 a5 a6 a7 a8 h
    rw [V_eq, checkWin_winnerOf, Option.getD_some]
    unfold atLeast at h
    by_cases hw : winnerOf a0 a1 a2 a3 a4 a5 a6 a7 a8 ≠ Blank
    · rw [if_pos hw] at h ⊢
      exact of_decide_eq_true h
    · rw [if_neg hw] at h ⊢
      by_cases hfull : a0 ≠ Blank ∧ a1 ≠ Blank ∧ a2 ≠ Blank ∧ a3 ≠ Blank ∧ a4 ≠ Blank ∧
          a5 ≠ Blank ∧ a6 ≠ Blank ∧ a7 ≠ Blank ∧ a8 ≠ Blank
      · rw [if_pos hfull] at h
        rw [if_pos ((blankCells_lit a0 a1 a2 a3 a4 a5 a6 a7 a8).2 hfull)]
        exact of_decide_eq_true h
      · rw [if_neg hfull] at h
        rw [if_neg (fun e => hfull ((blankCells_lit a0 a1 a2 a3 a4 a5 a6 a7 a8).1 e))]
        cases m with
        | true =>
          simp only [if_true, Bool.or_eq_true, Bool.and_eq_true, decide_eq_true_eq] at h
          have key : ∀ (c : Nat × Nat), c ∈ blankCells [[a0, a1, a2], [a3, a4, a5], [a6, a7, a8]] →
              k ≤ V (place [[a0, a1, a2], [a3, a4, a5], [a6, a7, a8]] c O) false →
              k ≤ maxOf ((blankCells [[a0, a1, a2], [a3, a4, a5], [a6, a7, a8]]).map
                fun c => V (place [[a0, a1, a2], [a3, a4, a5], [a6, a7, a8]] c O) false) :=
            fun c hc hk => le_trans hk (le_maxOf (List.mem_map.2 ⟨c, hc, rfl⟩))
          rcases h with (((((((⟨e, h⟩ | ⟨e, h⟩) | ⟨e, h⟩) | ⟨e, h⟩) | ⟨e, h⟩) | ⟨e, h⟩) |
            ⟨e, h⟩) | ⟨e, h⟩) | ⟨e, h⟩
          · exact key (1, 1) (mem_blankCells_lit a0 a1 a2 a3 a4 a5 a6 a7 a8 1 1 a4
              (by decide) (by decide) rfl e) (ih false a0 a1 a2 a3 O a5 a6 a7 a8 h)
          · exact key (0, 0) (mem_blankCells_lit a0 a1 a2 a3 a4 a5 a6 a7 a8 0 0 a0
              (by decide) (by decide) rfl e) (ih false O a1 a2 a3 a4 a5 a6 a7 a8 h)
          · exact key (0, 2) (mem_blankCells_lit a0 a1 a2 a3 a4 a5 a6 a7 a8 0 2 a2
              (by decide) (by decide) rfl e) (ih false a0 a1 O a3 a4 a5 a6 a7 a8 h)
          · exact key (2, 0) (mem_blankCells_lit a0 a1 a2 a3 a4 a5 a6 a7 a8 2 0 a6
              (by decide) (by decide) rfl e) (ih false a0 a1 a2 a3 a4 a5 O a7 a8 h)
          · exact key (2, 2) (mem_blankCells_lit a0 a1 a2 a3 a4 a5 a6 a7 a8 2 2 a8
              (by decide) (by decide) rfl e) (ih false a0 a1 a2 a3 a4 a5 a6 a7 O h)
          · exact key (0, 1) (mem_blankCells_lit a0 a1 a2 a3 a4 a5 a6 a7 a8 0 1 a1
              (by decide) (by decide) rfl e) (ih false a0 O a2 a3 a4 a5 a6 a7 a8 h)
          · exact key (1, 0) (mem_blankCells_lit a0 a1 a2 a3 a4 a5 a6 a7 a8 1 0 a3
              (by decide) (by decide) rfl e) (ih false a0 a1 a2 O a4 a5 a6 a7 a8 h)
          · exact key (1, 2) (mem_blankCells_lit a0 a1 a2 a3 a4 a5 a6 a7 a8 1 2 a5
              (by decide) (by decide) rfl e) (ih false a0 a1 a2 a3 a4 O a6 a7 a8 h)
          · exact key (2, 1) (mem_blankCells_lit a0 a1 a2 a3 a4 a5 a6 a7 a8 2 1 a7
              (by decide) (by decide) rfl e) (ih false a0 a1 a2 a3 a4 a5 a6 O a8 h)
        | false =>
          simp only [Bool.false_eq_true, if_false, Bool.or_eq_true, Bool.and_eq_true,
            decide_eq_true_eq] at h
          obtain ⟨⟨⟨⟨⟨⟨⟨⟨h0, h1⟩, h2⟩, h3⟩, h4⟩, h5⟩, h6⟩, h7⟩, h8⟩ := h
          have hne : (blankCells [[a0, a1, a2], [a3, a4, a5], [a6, a7, a8]]).map
              (fun c => V (place [[a0, a1, a2], [a3, a4, a5], [a6, a7, a8]] c X) true) ≠ [] := by
            intro e
            exact hfull ((blankCells_lit a0 a1 a2 a3 a4 a5 a6 a7 a8).1 (List.map_eq_nil_iff.1 e))
          obtain ⟨c, hc, hcv⟩ := List.mem_map.1 (minOf_mem hne)
          rw [← hcv]
          have hc' := mem_blankCells.1 hc
          have hca := hc'.1
          have hidx := hc'.2
          simp only [allCells, List.mem_cons, List.mem_singleton, List.not_mem_nil, or_false]
            at hca
          rcases hca with rfl | rfl | rfl | rfl | rfl | rfl | rfl | rfl | rfl
          · have e : a0 = Blank := Option.some.inj hidx
            exact ih true X a1 a2 a3 a4 a5 a6 a7 a8 (h0.resolve_left (fun hn => hn e))
          · have e : a1 = Blank := Option.some.inj hidx
            exact ih true a0 X a2 a3 a4 a5 a6 a7 a8 (h1.resolve_left (fun hn => hn e))
          · have e : a2 = Blank := Option.some.inj hidx
            exact ih true a0 a1 X a3 a4 a5 a6 a7 a8 (h2.resolve_left (fun hn => hn e))
          · have e : a3 = Blank := Option.some.inj hidx
            exact ih true a0 a1 a2 X a4 a5 a6 a7 a8 (h3.resolve_left (fun hn => hn e))
          · have e : a4 = Blank := Option.some.inj hidx
            exact ih true a0 a1 a2 a3 X a5 a6 a7 a8 (h4.resolve_left (fun hn => hn e))
          · have e : a5 = Blank := Option.some.inj hidx
            exact ih true a0 a1 a2 a3 a4 X a6 a7 a8 (h5.resolve_left (fun hn => hn e))
          · have e : a6 = Blank := Option.some.inj hidx
            exact ih true a0 a1 a2 a3 a4 a5 X a7 a8 (h6.resolve_left (fun hn => hn e))
          · have e : a7 = Blank := Option.some.inj hidx
            exact ih true a0 a1 a2 a3 a4 a5 a6 X a8 (h7.resolve_left (fun hn => hn e))
          · have e : a8 = Blank := Option.some.inj hidx
            exact ih true a0 a1 a2 a3 a4 a5 a6 a7 X (h8.resolve_left (fun hn => hn e))

/-! ## The opening move -/

theorem V_open_corner_ge :
    0 ≤ V [[O, Blank, Blank], [Blank, Blank, Blank], [Blank, Blank, Blank]] false :=
  atLeast_sound 0 8 false O Blank Blank Blank Blank Blank Blank Blank Blank (by decide!)

theorem V_open_01_le :
    V [[Blank, O, Blank], [Blank, Blank, Blank], [Blank, Blank, Blank]] false ≤ 0 := by
  have h := atLeast_sound 0 8 true Blank X Blank Blank Blank Blank Blank Blank Blank (by decide!)
  have e := V_swap 8 [[Blank, O, Blank], [Blank, Blank, Blank], [Blank, Blank, Blank]] false
    (by decide) (by decide) (by decide)
  have e' : swap [[Blank, O, Blank], [Blank, Blank, Blank], [Blank, Blank, Blank]]
      = [[Blank, X, Blank], [Blank, Blank, Blank], [Blank, Blank, Blank]] := by decide
  rw [e'] at e
  have e2 : (!false) = true := rfl
  rw [e2] at e
  rw [e] at h
  omega

theorem V_open_02_le :
    V [[Blank, Blank, O], [Blank, Blank, Blank], [Blank, Blank, Blank]] false ≤ 0 := by
  have h := atLeast_sound 0 8 true Blank Blank X Blank Blank Blank Blank Blank Blank (by decide!)
  have e := V_swap 8 [[Blank, Blank, O], [Blank, Blank, Blank], [Blank, Blank, Blank]] false
    (by decide) (by decide) (by decide)
  have e' : swap [[Blank, Blank, O], [Blank, Blank, Blank], [Blank, Blank, Blank]]
      = [[Blank, Blank, X], [Blank, Blank, Blank], [Blank, Blank, Blank]] := by decide
  rw [e'] at e
  have e2 : (!false) = true := rfl
  rw [e2] at e
  rw [e] at h
  omega

theorem V_open_10_le :
    V [[Blank, Blank, Blank], [O, Blank, Blank], [Blank, Blank, Blank]] false ≤ 0 := by
  have h := atLeast_sound 0 8 true Blank Blank Blank X Blank Blank Blank Blank Blank (by decide!)
  have e := V_swap 8 [[Blank, Blank, Blank], [O, Blank, Blank], [Blank, Blank, Blank]] false
    (by decide) (by decide) (by decide)
  have e' : swap [[Blank, Blank, Blank], [O, Blank, Blank], [Blank, Blank, Blank]]
      = [[Blank, Blank, Blank], [X, Blank, Blank], [Blank, Blank, Blank]] := by decide
  rw [e'] at e
  have e2 : (!false) = true := rfl
  rw [e2] at e
  rw [e] at h
  omega

theorem V_open_11_le :
    V [[Blank, Blank, Blank], [Blank, O, Blank], [Blank, Blank, Blank]] false ≤ 0 := by
  have h := atLeast_sound 0 8 true Blank Blank Blank Blank X Blank Blank Blank Blank (by decide!)
  have e := V_swap 8 [[Blank, Blank, Blank], [Blank, O, Blank], [Blank, Blank, Blank]] false
    (by decide) (by decide) (by decide)
  have e' : swap [[Blank, Blank, Blank], [Blank, O, Blank], [Blank, Blank, Blank]]
      = [[Blank, Blank, Blank], [Blank, X, Blank], [Blank, Blank, Blank]] := by decide
  rw [e'] at e
  have e2 : (!false) = true := rfl
  rw [e2] at e
  rw [e] at h
  omega

theorem V_open_12_le :
    V [[Blank, Blank, Blank], [Blank, Blank, O], [Blank, Blank, Blank]] false ≤ 0 := by
  have h := atLeast_sound 0 8 true Blank Blank Blank Blank Blank X Blank Blank Blank (by decide!)
  have e := V_swap 8 [[Blank, Blank, Blank], [Blank, Blank, O], [Blank, Blank, Blank]] false
    (by decide) (by decide) (by decide)
  have e' : swap [[Blank, Blank, Blank], [Blank, Blank, O], [Blank, Blank, Blank]]
      = [[Blank, Blank, Blank], [Blank, Blank, X], [Blank, Blank, Blank]] := by decide
  rw [e'] at e
  have e2 : (!false) = true := rfl
  rw [e2] at e
  rw [e] at h
  omega

theorem V_open_20_le :
    V [[Blank, Blank, Blank], [Blank, Blank, Blank], [O, Blank, Blank]] false ≤ 0 := by
  have h := atLeast_sound 0 8 true Blank Blank Blank Blank Blank Blank X Blank Blank (by decide!)
  have e := V_swap 8 [[Blank, Blank, Blank], [Blank, Blank, Blank], [O, Blank, Blank]] false
    (by decide) (by decide) (by decide)
  have e' : swap [[Blank, Blank, Blank], [Blank, Blank, Blank], [O, Blank, Blank]]
      = [[Blank, Blank, Blank], [Blank, Blank, Blank], [X, Blank, Blank]] := by decide
  rw [e'] at e
  have e2 : (!false) = true := rfl
  rw [e2] at e
  rw [e] at h
  omega

theorem V_open_21_le :
    V [[Blank, Blank, Blank], [Blank, Blank, Blank], [Blank, O, Blank]] false ≤ 0 := by
  have h := atLeast_sound 0 8 true Blank Blank Blank Blank Blank Blank Blank X Blank (by decide!)
  have e := V_swap 8 [[Blank, Blank, Blank], [Blank, Blank, Blank], [Blank, O, Blank]] false
    (by decide) (by decide) (by decide)
  have e' : swap [[Blank, Blank, Blank], [Blank, Blank, Blank], [Blank, O, Blank]]
      = [[Blank, Blank, Blank], [Blank, Blank, Blank], [Blank, X, Blank]] := by decide
  rw [e'] at e
  have e2 : (!false) = true := rfl
  rw [e2] at e
  rw [e] at h
  omega

theorem V_open_22_le :
    V [[Blank, Blank, Blank], [Blank, Blank, Blank], [Blank, Blank, O]] false ≤ 0 := by
  have h := atLeast_sound 0 8 true Blank Blank Blank Blank Blank Blank Blank Blank X (by decide!)
  have e := V_swap 8 [[Blank, Blank, Blank], [Blank, Blank, Blank], [Blank, Blank, O]] false
    (by decide) (by decide) (by decide)
  have e' : swap [[Blank, Blank, Blank], [Blank, Blank, Blank], [Blank, Blank, O]]
      = [[Blank, Blank, Blank], [Blank, Blank, Blank], [Blank, Blank, X]] := by decide
  rw [e'] at e
  have e2 : (!false) = true := rfl
  rw [e2] at e
  rw [e] at h
  omega

theorem nextMove_opening (fuel : Nat) (hfuel : 9 ≤ fuel) :
    nextMove fuel [[Blank, Blank, Blank], [Blank, Blank, Blank], [Blank, Blank, Blank]] O
      = some [[O, Blank, Blank], [Blank, Blank, Blank], [Blank, Blank, Blank]] := by
  obtain ⟨d, hd, hnm, h⟩ := nextMove_spec_V
    (by decide : Is3x3 [[Blank, Blank, Blank], [Blank, Blank, Blank], [Blank, Blank, Blank]])
    (by decide) (by decide) (by decide) (Or.inr rfl) hfuel
  have h00 : ((0 : Nat), (0 : Nat)) ∈
      blankCells [[Blank, Blank, Blank], [Blank, Blank, Blank], [Blank, Blank, Blank]] := by
    decide
  have hlt := fun hs => ((h (0, 0) h00).2 rfl).2 hs
  have hge := V_open_corner_ge
  have hca := (mem_blankCells.1 hd).1
  simp only [allCells, List.mem_cons, List.mem_singleton, List.not_mem_nil, or_false] at hca
  rw [hnm]
  rcases hca with rfl | rfl | rfl | rfl | rfl | rfl | rfl | rfl | rfl
  · rfl
  · exfalso
    have h1 : V [[O, Blank, Blank], [Blank, Blank, Blank], [Blank, Blank, Blank]] false
        < V [[Blank, O, Blank], [Blank, Blank, Blank], [Blank, Blank, Blank]] false := hlt (by decide)
    have h2 := V_open_01_le
    omega
  · exfalso
    have h1 : V [[O, Blank, Blank], [Blank, Blank, Blank], [Blank, Blank, Blank]] false
        < V [[Blank, Blank, O], [Blank, Blank, Blank], [Blank, Blank, Blank]] false := hlt (by decide)
    have h2 := V_open_02_le
    omega
  · exfalso
    have h1 : V [[O, Blank, Blank], [Blank, Blank, Blank], [Blank, Blank, Blank]] false
        < V [[Blank, Blank, Blank], [O, Blank, Blank], [Blank, Blank, Blank]] false := hlt (by decide)
    have h2 := V_open_10_le
    omega
  · exfalso
    have h1 : V [[O, Blank, Blank], [Blank, Blank, Blank], [Blank, Blank, Blank]] false
        < V [[Blank, Blank, Blank], [Blank, O, Blank], [Blank, Blank, Blank]] false := hlt (by decide)
    have h2 := V_open_11_le
    omega
  · exfalso
    have h1 : V [[O, Blank, Blank], [Blank, Blank, Blank], [Blank, Blank, Blank]] false
        < V [[Blank, Blank, Blank], [Blank, Blank, O], [Blank, Blank, Blank]] false := hlt (by decide)
    have h2 := V_open_12_le
    omega
  · exfalso
    have h1 : V [[O, Blank, Blank], [Blank, Blank, Blank], [Blank, Blank, Blank]] false
        < V [[Blank, Blank, Blank], [Blank, Blank, Blank], [O, Blank, Blank]] false := hlt (by decide)
    have h2 := V_open_20_le
    omega
  · exfalso
    have h1 : V [[O, Blank, Blank], [Blank, Blank, Blank], [Blank, Blank, Blank]] false
        < V [[Blank, Blank, Blank], [Blank, Blank, Blank], [Blank, O, Blank]] false := hlt (by decide)
    have h2 := V_open_21_le
    omega
  · exfalso
    have h1 : V [[O, Blank, Blank], [Blank, Blank, Blank], [Blank, Blank, Blank]] false
        < V [[Blank, Blank, Blank], [Blank, Blank, Blank], [Blank, Blank, O]] false := hlt (by decide)
    have h2 := V_open_22_le
    omega

/-! ## The claims -/

/-- C1: optimality of `nextMove`. On a 3 by 3 board `b` over `X`, `Blank`, `O` on which
`checkWin` is `Blank` and `checkFull` is false, for a player `p` that is `X` or `O`,
`nextMove` leaves a board `b'` such that for every `Blank` cell `(i, j)` of `b`, with `bij`
the board `b` with `p` at `(i, j)`: when `p = X` the score `minimax(b', true)` is at most
`minimax(bij, true)`, and when `p = O` the score `minimax(b', false)` is at least
`minimax(bij, false)`. -/
theorem nextMove_optimal (fuel : Nat) (b : Board) (p : BoardSpace) (hb : Is3x3 b)
    (hm : OverMarks b) (hw : checkWin b = some Blank) (hf : checkFull b = some false)
    (hp : p = X ∨ p = O) (hfuel : 9 ≤ fuel) :
    ∃ b', nextMove fuel b p = some b' ∧
      ∀ i j bij, index b i j = some Blank → assign b i j p = some bij →
        (p = X → ∃ s s', (minimax fuel b' true).map Prod.snd = some s ∧
          (minimax fuel bij true).map Prod.snd = some s' ∧ s ≤ s') ∧
        (p = O → ∃ s s', (minimax fuel b' false).map Prod.snd = some s ∧
          (minimax fuel bij false).map Prod.snd = some s' ∧ s' ≤ s) := by
  obtain ⟨d, _, hnm, h⟩ := nextMove_spec hb hm hw hf hp hfuel
  refine ⟨_, hnm, ?_⟩
  intro i j bij hij hbij
  obtain ⟨s, s', h1, h2, h3, h4⟩ := h i j bij hij hbij
  constructor
  · intro hX
    subst hX
    have e : (X == X) = true := by decide
    rw [e] at h1 h2
    exact ⟨s, s', by rw [h1]; rfl, by rw [h2]; rfl, (h3 rfl).1⟩
  · intro hO
    subst hO
    have e : (O == X) = false := by decide
    rw [e] at h1 h2
    exact ⟨s, s', by rw [h1]; rfl, by rw [h2]; rfl, (h4 rfl).1⟩

theorem nextMove_optimal_witness :
    ∃ b', nextMove 9 [[-1, 1, -1], [1, 1, -1], [0, -1, 0]] X = some b' ∧
      ∀ i j bij, index [[-1, 1, -1], [1, 1, -1], [0, -1, 0]] i j = some Blank →
        assign [[-1, 1, -1], [1, 1, -1], [0, -1, 0]] i j X = some bij →
        (X = X → ∃ s s', (minimax 9 b' true).map Prod.snd = some s ∧
          (minimax 9 bij true).map Prod.snd = some s' ∧ s ≤ s') ∧
        (X = O → ∃ s s', (minimax 9 b' false).map Prod.snd = some s ∧
          (minimax 9 bij false).map Prod.snd = some s' ∧ s' ≤ s) :=
  nextMove_optimal 9 [[-1, 1, -1], [1, 1, -1], [0, -1, 0]] X (by decide) (by decide)
    (by decide) (by decide) (Or.inl rfl) (le_refl 9)

/-- C2: exactly one legal placement. Under the hypotheses of C1, the board `b'` left by
`nextMove` differs from `b` in exactly one cell `(r, c)`: that cell is `Blank` in `b`,
holds `p` in `b'`, and every other cell reads the same in `b'` as in `b`. -/
theorem nextMove_one_placement (fuel : Nat) (b : Board) (p : BoardSpace) (hb : Is3x3 b)
    (hm : OverMarks b) (hw : checkWin b = some Blank) (hf : checkFull b = some false)
    (hp : p = X ∨ p = O) (hfuel : 9 ≤ fuel) :
    ∃ b' r c, nextMove fuel b p = some b' ∧ r < 3 ∧ c < 3 ∧
      index b r c = some Blank ∧ index b' r c = some p ∧ p ≠ Blank ∧
      ∀ i j, (i ≠ r ∨ j ≠ c) → index b' i j = index b i j := by
  obtain ⟨d, hd, hnm, _⟩ := nextMove_spec hb hm hw hf hp hfuel
  have hmem := mem_allCells.1 (mem_blankCells.1 (index_blank_mem hb hd)).1
  have hpl := place_of_blank hd p
  refine ⟨_, d.1, d.2, hnm, hmem.1, hmem.2, hd, ?_, ?_, ?_⟩
  · rw [index_assign hpl]; simp
  · rcases hp with h | h <;> rw [h] <;> decide
  · intro i j hij
    rw [index_assign hpl]
    have : ¬ (i = d.1 ∧ j = d.2) := by
      rintro ⟨h1, h2⟩
      rcases hij with h | h
      · exact h h1
      · exact h h2
    simp [this]

theorem nextMove_one_placement_witness :
    ∃ b' r c, nextMove 9 [[-1, 1, -1], [1, 1, -1], [0, -1, 0]] O = some b' ∧ r < 3 ∧ c < 3 ∧
      index [[-1, 1, -1], [1, 1, -1], [0, -1, 0]] r c = some Blank ∧
      index b' r c = some O ∧ O ≠ Blank ∧
      ∀ i j, (i ≠ r ∨ j ≠ c) →
        index b' i j = index [[-1, 1, -1], [1, 1, -1], [0, -1, 0]] i j :=
  nextMove_one_placement 9 [[-1, 1, -1], [1, 1, -1], [0, -1, 0]] O (by decide) (by decide)
    (by decide) (by decide) (Or.inr rfl) (le_refl 9)

/-- C3: the no-op conditions of `nextMove`. On every 3 by 3 board `b` (cells arbitrary
integers) and for every player `p`, if `p = Blank`, or `checkWin` reports a winner, or
`checkFull` is true, then `nextMove` returns leaving the board equal to `b`. -/
theorem nextMove_noop (fuel : Nat) (b : Board) (p : BoardSpace) (hb : Is3x3 b)
    (h : p = Blank ∨ (∃ w, checkWin b = some w ∧ w ≠ Blank) ∨ checkFull b = some true) :
    nextMove fuel b p = some b := by
  by_cases hp : p = Blank
  · subst hp
    have e : (Blank == Blank) = true := by decide
    simp [nextMove, e]
  · have hp' : (p == Blank) = false := by simpa using hp
    obtain ⟨w, hw⟩ := checkWin_total hb
    by_cases hwb : w = Blank
    · subst hwb
      rcases h with h | ⟨w', hw', hne⟩ | h
      · exact absurd h hp
      · rw [hw] at hw'
        simp only [Option.some.injEq] at hw'
        exact absurd hw'.symm hne
      · simp [nextMove, hp', hw, h]
    · simp [nextMove, hp', hw, hwb]

theorem nextMove_noop_witness :
    nextMove 0 [[1, -1, 1], [1, -1, -1], [-1, 1, 1]] X
      = some [[1, -1, 1], [1, -1, -1], [-1, 1, 1]] :=
  nextMove_noop 0 [[1, -1, 1], [1, -1, -1], [-1, 1, 1]] X (by decide)
    (Or.inr (Or.inr (by decide)))

/-- C4: the deterministic tie-break of `nextMove`. Under the hypotheses of C1, `nextMove`
places `p` at a `Blank` cell `(r, c)` whose resulting position has the optimal score
(the minimum of `minimax(bij, true)` for `X`, the maximum of `minimax(bij, false)` for
`O`, over the `Blank` cells), and every `Blank` cell scanned before `(r, c)` in row-major
order has a strictly worse score. -/
theorem nextMove_first_best (fuel : Nat) (b : Board) (p : BoardSpace) (hb : Is3x3 b)
    (hm : OverMarks b) (hw : checkWin b = some Blank) (hf : checkFull b = some false)
    (hp : p = X ∨ p = O) (hfuel : 9 ≤ fuel) :
    ∃ r c b', index b r c = some Blank ∧ assign b r c p = some b' ∧
      nextMove fuel b p = some b' ∧
      ∀ i j bij, index b i j = some Blank → assign b i j p = some bij →
        (p = X → ∃ s s', (minimax fuel b' true).map Prod.snd = some s ∧
          (minimax fuel bij true).map Prod.snd = some s' ∧ s ≤ s' ∧
          (scannedBefore (i, j) (r, c) → s < s')) ∧
        (p = O → ∃ s s', (minimax fuel b' false).map Prod.snd = some s ∧
          (minimax fuel bij false).map Prod.snd = some s' ∧ s' ≤ s ∧
          (scannedBefore (i, j) (r, c) → s' < s)) := by
  obtain ⟨d, hd, hnm, h⟩ := nextMove_spec hb hm hw hf hp hfuel
  refine ⟨d.1, d.2, _, hd, place_of_blank hd p, hnm, ?_⟩
  intro i j bij hij hbij
  obtain ⟨s, s', h1, h2, h3, h4⟩ := h i j bij hij hbij
  constructor
  · intro hX
    subst hX
    have e : (X == X) = true := by decide
    rw [e] at h1 h2
    exact ⟨s, s', by rw [h1]; rfl, by rw [h2]; rfl, (h3 rfl).1, (h3 rfl).2⟩
  · intro hO
    subst hO
    have e : (O == X) = false := by decide
    rw [e] at h1 h2
    exact ⟨s, s', by rw [h1]; rfl, by rw [h2]; rfl, (h4 rfl).1, (h4 rfl).2⟩

theorem nextMove_first_best_witness :
    ∃ r c b', index [[1, -1, 0], [-1, 1, 0], [0, -1, 0]] r c = some Blank ∧
      assign [[1, -1, 0], [-1, 1, 0], [0, -1, 0]] r c O = some b' ∧
      nextMove 9 [[1, -1, 0], [-1, 1, 0], [0, -1, 0]] O = some b' ∧
      ∀ i j bij, index [[1, -1, 0], [-1, 1, 0], [0, -1, 0]] i j = some Blank →
        assign [[1, -1, 0], [-1, 1, 0], [0, -1, 0]] i j O = some bij →
        (O = X → ∃ s s', (minimax 9 b' true).map Prod.snd = some s ∧
          (minimax 9 bij true).map Prod.snd = some s' ∧ s ≤ s' ∧
          (scannedBefore (i, j) (r, c) → s < s')) ∧
        (O = O → ∃ s s', (minimax 9 b' false).map Prod.snd = some s ∧
          (minimax 9 bij false).map Prod.snd = some s' ∧ s' ≤ s ∧
          (scannedBefore (i, j) (r, c) → s' < s)) :=
  nextMove_first_best 9 [[1, -1, 0], [-1, 1, 0], [0, -1, 0]] O (by decide) (by decide)
    (by decide) (by decide) (Or.inr rfl) (le_refl 9)

/-- C5: the score range of `minimax`. On a 3 by 3 board over `X`, `Blank`, `O`, for both
values of the maximizer flag and with fuel above the number of `Blank` cells, `minimax`
returns a score that is `-1`, `0` or `1`; in particular it is neither `math.MinInt` nor
`math.MaxInt`. -/
theorem minimax_range (fuel : Nat) (b : Board) (m : Bool) (hb : Is3x3 b) (hm : OverMarks b)
    (hfuel : numBlank b < fuel) :
    ∃ v, (minimax fuel b m).map Prod.snd = some v ∧ (v = -1 ∨ v = 0 ∨ v = 1) ∧
      v ≠ MinInt ∧ v ≠ MaxInt := by
  refine ⟨V b m, by rw [minimax_eq_V fuel b m hb hm hfuel]; rfl, ?_, ?_, ?_⟩
  · exact V_range _ b m (le_refl _) hb hm
  · rcases V_range _ b m (le_refl _) hb hm with h | h | h <;> rw [h] <;> decide
  · rcases V_range _ b m (le_refl _) hb hm with h | h | h <;> rw [h] <;> decide

theorem minimax_range_witness :
    ∃ v, (minimax 3 [[-1, 1, -1], [1, 1, -1], [0, -1, 0]] true).map Prod.snd = some v ∧
      (v = -1 ∨ v = 0 ∨ v = 1) ∧ v ≠ MinInt ∧ v ≠ MaxInt :=
  minimax_range 3 [[-1, 1, -1], [1, 1, -1], [0, -1, 0]] true (by decide) (by decide)
    (by decide)

/-- C6: `minimax` computes the textbook minimax value. On a 3 by 3 board over `X`, `Blank`,
`O`, with fuel above the number of `Blank` cells, the score returned by the in-place,
backtracking `minimax` is the reference value `V`. -/
theorem minimax_refines_V (fuel : Nat) (b : Board) (m : Bool) (hb : Is3x3 b)
    (hm : OverMarks b) (hfuel : numBlank b < fuel) :
    (minimax fuel b m).map Prod.snd = some (V b m) := by
  rw [minimax_eq_V fuel b m hb hm hfuel]; rfl

theorem minimax_refines_V_witness :
    (minimax 3 [[-1, 1, -1], [1, 1, -1], [0, -1, 0]] false).map Prod.snd
      = some (V [[-1, 1, -1], [1, 1, -1], [0, -1, 0]] false) :=
  minimax_refines_V 3 [[-1, 1, -1], [1, 1, -1], [0, -1, 0]] false (by decide) (by decide)
    (by decide)

/-- C7: `checkWin` is correct winner detection. On every 3 by 3 board `checkWin` returns a
value `w`; `w` differs from `Blank` if and only if some row, column or diagonal holds three
equal marks other than `Blank`; and when `w` differs from `Blank`, some row, column or
diagonal has all three cells equal to `w`. -/
theorem checkWin_correct (b : Board) (hb : Is3x3 b) :
    ∃ w, checkWin b = some w ∧
      (w ≠ Blank ↔ ∃ l ∈ allLines, ∃ v, v ≠ Blank ∧ LineHolds b l v) ∧
      (w ≠ Blank → ∃ l ∈ allLines, LineHolds b l w) :=
  checkWin_spec b hb

theorem checkWin_correct_witness :
    ∃ w, checkWin [[1, 0, -1], [0, 1, -1], [0, 0, 1]] = some w ∧
      (w ≠ Blank ↔ ∃ l ∈ allLines, ∃ v, v ≠ Blank ∧
        LineHolds [[1, 0, -1], [0, 1, -1], [0, 0, 1]] l v) ∧
      (w ≠ Blank → ∃ l ∈ allLines, LineHolds [[1, 0, -1], [0, 1, -1], [0, 0, 1]] l w) :=
  checkWin_correct [[1, 0, -1], [0, 1, -1], [0, 0, 1]] (by decide)

/-- C8: `checkFull` is correct fullness detection. On every 3 by 3 board `checkFull`
returns true if and only if none of the nine cells equals `Blank`. -/
theorem checkFull_correct (b : Board) (hb : Is3x3 b) :
    ∃ f, checkFull b = some f ∧
      (f = true ↔ ∀ i < 3, ∀ j < 3, index b i j ≠ some Blank) := by
  refine ⟨_, checkFull_eq hb, ?_⟩
  rw [decide_eq_true_iff]
  exact blankCells_eq_nil_iff

theorem checkFull_correct_witness :
    ∃ f, checkFull [[1, -1, 1], [1, -1, -1], [-1, 1, 0]] = some f ∧
      (f = true ↔ ∀ i < 3, ∀ j < 3,
        index [[1, -1, 1], [1, -1, -1], [-1, 1, 0]] i j ≠ some Blank) :=
  checkFull_correct [[1, -1, 1], [1, -1, -1], [-1, 1, 0]] (by decide)

/-- C9: the text round trip. For every grid `g` of exactly 3 rows of exactly 3 strings,
`toBoard` succeeds and `toBoardStrings` of its result is `normalize g`, where `normalize`
maps `X`, `x` to `X`, maps `O`, `o` to `O` and maps every other string to `_`. -/
theorem text_round_trip (g : List (List String)) (hg : Is3x3 g) :
    ∃ b, toBoard g = some b ∧ toBoardStrings b = some (normalize g) := by
  obtain ⟨s0, s1, s2, s3, s4, s5, s6, s7, s8, rfl⟩ := hg.lit
  refine ⟨_, toBoard_lit s0 s1 s2 s3 s4 s5 s6 s7 s8, ?_⟩
  rw [toBoardStrings_lit]
  simp only [normalize, List.map_cons, List.map_nil, toCode_toSpace]

theorem text_round_trip_witness :
    ∃ b, toBoard [["x", "O", "_"], ["XX", "", "o"], ["a", "b", "X"]] = some b ∧
      toBoardStrings b
        = some (normalize [["x", "O", "_"], ["XX", "", "o"], ["a", "b", "X"]]) :=
  text_round_trip [["x", "O", "_"], ["XX", "", "o"], ["a", "b", "X"]] (by decide)

/-- C10: lossless board serialisation. For every 3 by 3 board `b` over `X`, `Blank`, `O`,
`toBoardStrings` succeeds with a grid `g` every cell of which is one of the codes `X`, `O`,
`_`, and `toBoard g` gives back `b`; hence a second such board with the same serialisation
is equal to `b`. -/
theorem board_round_trip (b : Board) (hb : Is3x3 b) (hm : OverMarks b) :
    ∃ g, toBoardStrings b = some g ∧ toBoard g = some b ∧
      (∀ row ∈ g, ∀ s ∈ row, s = "X" ∨ s = "O" ∨ s = "_") ∧
      ∀ b2, Is3x3 b2 → OverMarks b2 → toBoardStrings b2 = some g → b2 = b := by
  have key : ∀ b : Board, Is3x3 b → OverMarks b →
      ∃ g, toBoardStrings b = some g ∧ toBoard g = some b ∧
        (∀ row ∈ g, ∀ s ∈ row, s = "X" ∨ s = "O" ∨ s = "_") := by
    intro b hb hm
    obtain ⟨a0, a1, a2, a3, a4, a5, a6, a7, a8, rfl⟩ := hb.lit
    refine ⟨_, toBoardStrings_lit a0 a1 a2 a3 a4 a5 a6 a7 a8, ?_, ?_⟩
    · rw [toBoard_lit]
      have h : ∀ v, v ∈ [a0, a1, a2] ∨ v ∈ [a3, a4, a5] ∨ v ∈ [a6, a7, a8] →
          toSpace (toCode v) = v := by
        intro v hv
        apply toSpace_toCode
        rcases hv with hv | hv | hv
        · exact hm _ (by simp) v hv
        · exact hm _ (by simp) v hv
        · exact hm _ (by simp) v hv
      rw [h a0 (by simp), h a1 (by simp), h a2 (by simp), h a3 (by simp), h a4 (by simp),
        h a5 (by simp), h a6 (by simp), h a7 (by simp), h a8 (by simp)]
    · intro row hrow s hs
      simp only [List.mem_cons, List.mem_singleton, List.not_mem_nil, or_false] at hrow
      rcases hrow with rfl | rfl | rfl <;>
        · simp only [List.mem_cons, List.mem_singleton, List.not_mem_nil, or_false] at hs
          rcases hs with rfl | rfl | rfl <;> exact toCode_code _
  obtain ⟨g, h1, h2, h3⟩ := key b hb hm
  refine ⟨g, h1, h2, h3, ?_⟩
  intro b2 hb2 hm2 hg2
  obtain ⟨g2, e1, e2, _⟩ := key b2 hb2 hm2
  rw [hg2] at e1
  simp only [Option.some.injEq] at e1
  subst e1
  rw [h2] at e2
  simpa using e2.symm

theorem board_round_trip_witness :
    ∃ g, toBoardStrings [[-1, 1, 0], [0, 0, 1], [0, 0, -1]] = some g ∧
      toBoard g = some [[-1, 1, 0], [0, 0, 1], [0, 0, -1]] ∧
      (∀ row ∈ g, ∀ s ∈ row, s = "X" ∨ s = "O" ∨ s = "_") ∧
      ∀ b2, Is3x3 b2 → OverMarks b2 → toBoardStrings b2 = some g →
        b2 = [[-1, 1, 0], [0, 0, 1], [0, 0, -1]] :=
  board_round_trip [[-1, 1, 0], [0, 0, 1], [0, 0, -1]] (by decide) (by decide)


/-- C11 (as stated, refuted): a grid of four rows whose first row has four columns is not a
3 by 3 grid, yet `toBoard` does not fail on it; it returns the board of the top-left
3 by 3 block. -/
theorem toBoard_accepts_oversize :
    ¬ Is3x3 [["X", "O", "_", "X"], ["_", "_", "_"], ["_", "_", "_"], ["O", "O", "O"]] ∧
      toBoard [["X", "O", "_", "X"], ["_", "_", "_"], ["_", "_", "_"], ["O", "O", "O"]]
        = some [[X, O, Blank], [Blank, Blank, Blank], [Blank, Blank, Blank]] := by
  decide

/-- C11 (amended): `toBoard` itself performs no dimension check. It fails, by an index
panic, exactly when one of the nine cells of rows 0..2 and columns 0..2 is missing from the
grid; on every other grid, also one with more than 3 rows or columns, it returns the 3 by 3
board converted from the top-left 3 by 3 block. Every grid that is not exactly 3 by 3 is
rejected by the `checkDims` guard of `moveReq`, which answers status 400 before `toBoard`
is called. -/
theorem toBoard_dims (g : List (List String)) :
    (toBoard g = none ↔ ∃ i < 3, ∃ j < 3, index g i j = none) ∧
      (∀ b, toBoard g = some b → Is3x3 b ∧
        ∀ i < 3, ∀ j < 3, ∃ s, index g i j = some s ∧ index b i j = some (toSpace s)) ∧
      (¬ Is3x3 g → ∀ fuel p, moveReq fuel g p = some Reply.badRequest) := by
  refine ⟨toBoard_eq_none_iff g, ?_, fun hg fuel p => moveReq_badRequest hg fuel p⟩
  intro b hb
  obtain ⟨s0, s1, s2, s3, s4, s5, s6, s7, s8, h0, h1, h2, h3, h4, h5, h6, h7, h8, rfl⟩ :=
    toBoard_some hb
  refine ⟨⟨rfl, by simp⟩, ?_⟩
  intro i hi j hj
  interval_cases i <;> interval_cases j
  · exact ⟨s0, h0, rfl⟩
  · exact ⟨s1, h1, rfl⟩
  · exact ⟨s2, h2, rfl⟩
  · exact ⟨s3, h3, rfl⟩
  · exact ⟨s4, h4, rfl⟩
  · exact ⟨s5, h5, rfl⟩
  · exact ⟨s6, h6, rfl⟩
  · exact ⟨s7, h7, rfl⟩
  · exact ⟨s8, h8, rfl⟩

/-- C12: dimension validation. For every grid `g`, `checkDims` returns, and it returns true
if and only if `g` has exactly 3 rows of exactly 3 entries each; every 2 by 3 and every
3 by 2 grid is rejected; and when it returns true every cell that `toBoard` reads from `g`
is in range. -/
theorem checkDims_correct (g : List (List String)) :
    ∃ r, checkDims g = some r ∧ (r = true ↔ Is3x3 g) ∧
      (g.length = 2 → (∀ row ∈ g, row.length = 3) → r = false) ∧
      (g.length = 3 → (∀ row ∈ g, row.length = 2) → r = false) ∧
      (r = true → ∀ i < 3, ∀ j < 3, ∃ s, index g i j = some s) := by
  refine ⟨_, checkDims_eq g, by simp, ?_, ?_, ?_⟩
  · intro h _
    simp [Is3x3, h]
  · intro h h2
    simp only [decide_eq_false_iff_not]
    rintro ⟨_, h3⟩
    obtain ⟨r0, r1, r2, rfl⟩ := list_len3 h
    have e1 := h2 r0 (by simp)
    have e2 := h3 r0 (by simp)
    omega
  · intro h i hi j hj
    exact index_isSome (by simpa using h) hi hj

/-- C13 (as stated, refuted): with the player value `5`, which is none of `X`, `Blank`,
`O`, `nextMove` does not leave the board unchanged: on a board with no winner that is not
full it writes `5` over the `X` at cell `(0, 0)`. -/
theorem nextMove_invalid_player_writes :
    nextMove 2 [[-1, 1, -1], [1, 1, -1], [0, -1, 0]] 5
        = some [[5, 1, -1], [1, 1, -1], [0, -1, 0]] ∧
      ([[5, 1, -1], [1, 1, -1], [0, -1, 0]] : Board) ≠ [[-1, 1, -1], [1, 1, -1], [0, -1, 0]] := by
  decide

/-- C13 (amended): the empty player marker is a no-op. For every board `b`,
`nextMove` with player `Blank` leaves `b` unchanged in every cell; and for every player
value, valid or not, `nextMove` leaves a 3 by 3 board unchanged when it already has a
winner or is full. -/
theorem nextMove_blank_noop :
    (∀ (fuel : Nat) (b : Board), nextMove fuel b Blank = some b) ∧
      (∀ (fuel : Nat) (b : Board) (p : BoardSpace), Is3x3 b →
        ((∃ w, checkWin b = some w ∧ w ≠ Blank) ∨ checkFull b = some true) →
        nextMove fuel b p = some b) :=
  ⟨nextMove_blank, nextMove_terminal⟩

/-- C14: totality of the core. On every 3 by 3 board of arbitrary cell values and for every
player, `checkWin` and `checkFull` return; `minimax` returns once the fuel exceeds the
number of `Blank` cells, and `nextMove` once the fuel reaches it, so no index they use is
out of range; the number of `Blank` cells is at most 9; and writing a mark other than
`Blank` on a `Blank` cell, as done before each recursive call, strictly lowers the number of
`Blank` cells. -/
theorem core_total (fuel : Nat) (b : Board) (p : BoardSpace) (m : Bool) (hb : Is3x3 b) :
    (∃ w, checkWin b = some w) ∧ (∃ f, checkFull b = some f) ∧
      (numBlank b < fuel → ∃ r, minimax fuel b m = some r) ∧
      (numBlank b ≤ fuel → ∃ b', nextMove fuel b p = some b') ∧
      numBlank b ≤ 9 ∧
      (∀ i j v b', index b i j = some Blank → v ≠ Blank → assign b i j v = some b' →
        numBlank b' < numBlank b) := by
  refine ⟨checkWin_total hb, ⟨_, checkFull_eq hb⟩, ?_, ?_, numBlank_le b, ?_⟩
  · intro h
    obtain ⟨v, hv⟩ := minimax_total fuel b m hb h
    exact ⟨_, hv⟩
  · intro h
    exact nextMove_total hb h p
  · intro i j v b' hidx hv hb'
    exact numBlank_assign_lt (mem_blankCells.1 (index_blank_mem hb hidx)).1 hidx hv hb'

theorem core_total_witness :
    (∃ w, checkWin [[7, 0, -1], [0, 7, 0], [3, 0, 0]] = some w) ∧
      (∃ f, checkFull [[7, 0, -1], [0, 7, 0], [3, 0, 0]] = some f) ∧
      (numBlank [[7, 0, -1], [0, 7, 0], [3, 0, 0]] < 6 →
        ∃ r, minimax 6 [[7, 0, -1], [0, 7, 0], [3, 0, 0]] true = some r) ∧
      (numBlank [[7, 0, -1], [0, 7, 0], [3, 0, 0]] ≤ 6 →
        ∃ b', nextMove 6 [[7, 0, -1], [0, 7, 0], [3, 0, 0]] 4 = some b') ∧
      numBlank [[7, 0, -1], [0, 7, 0], [3, 0, 0]] ≤ 9 ∧
      (∀ i j v b', index [[7, 0, -1], [0, 7, 0], [3, 0, 0]] i j = some Blank → v ≠ Blank →
        assign [[7, 0, -1], [0, 7, 0], [3, 0, 0]] i j v = some b' →
        numBlank b' < numBlank [[7, 0, -1], [0, 7, 0], [3, 0, 0]]) :=
  core_total 6 [[7, 0, -1], [0, 7, 0], [3, 0, 0]] 4 true (by decide)

/-- C18: backtracking restores the board. On a 3 by 3 board over `X`, `Blank`, `O`, for
both values of the maximizer flag and with fuel above the number of `Blank` cells, the
board that `minimax` leaves behind is the board it was called on. -/
theorem minimax_restores (fuel : Nat) (b : Board) (m : Bool) (hb : Is3x3 b)
    (hm : OverMarks b) (hfuel : numBlank b < fuel) :
    ∃ v, minimax fuel b m = some (b, v) :=
  ⟨V b m, minimax_eq_V fuel b m hb hm hfuel⟩

theorem minimax_restores_witness :
    checkWin [[-1, 1, -1], [1, 1, -1], [0, -1, 0]] = some Blank ∧
      checkFull [[-1, 1, -1], [1, 1, -1], [0, -1, 0]] = some false ∧
      numBlank [[-1, 1, -1], [1, 1, -1], [0, -1, 0]] = 2 ∧
      ∃ v, minimax 3 [[-1, 1, -1], [1, 1, -1], [0, -1, 0]] true
        = some ([[-1, 1, -1], [1, 1, -1], [0, -1, 0]], v) :=
  ⟨by decide, by decide, by decide,
    minimax_restores 3 [[-1, 1, -1], [1, 1, -1], [0, -1, 0]] true (by decide) (by decide)
      (by decide)⟩

/-- C15: the scenario "win over block". From the board of the grid `X X _ / O O _ / _ _ _`,
`nextMove` with player `X` and fuel at least 9 places `X` at row 0, column 2, changes no
other cell, and `checkWin` of the resulting board is `X`. -/
theorem scenario_win_over_block (fuel : Nat) (hfuel : 9 ≤ fuel) :
    toBoard [["X", "X", "_"], ["O", "O", "_"], ["_", "_", "_"]]
        = some [[X, X, Blank], [O, O, Blank], [Blank, Blank, Blank]] ∧
      nextMove fuel [[X, X, Blank], [O, O, Blank], [Blank, Blank, Blank]] X
        = some [[X, X, X], [O, O, Blank], [Blank, Blank, Blank]] ∧
      assign [[X, X, Blank], [O, O, Blank], [Blank, Blank, Blank]] 0 2 X
        = some [[X, X, X], [O, O, Blank], [Blank, Blank, Blank]] ∧
      checkWin [[X, X, X], [O, O, Blank], [Blank, Blank, Blank]] = some X := by
  refine ⟨by decide, ?_, by decide, by decide⟩
  have h := nextMove_first_blank_win fuel [[X, X, Blank], [O, O, Blank], [Blank, Blank, Blank]]
    X (0, 2) [(1, 2), (2, 0), (2, 1), (2, 2)]
    (by decide) (by decide) (by decide) (by decide) (Or.inl rfl) hfuel (by decide) (by decide)
  rw [h]
  decide

theorem scenario_win_over_block_witness :
    toBoard [["X", "X", "_"], ["O", "O", "_"], ["_", "_", "_"]]
        = some [[X, X, Blank], [O, O, Blank], [Blank, Blank, Blank]] ∧
      nextMove 9 [[X, X, Blank], [O, O, Blank], [Blank, Blank, Blank]] X
        = some [[X, X, X], [O, O, Blank], [Blank, Blank, Blank]] ∧
      assign [[X, X, Blank], [O, O, Blank], [Blank, Blank, Blank]] 0 2 X
        = some [[X, X, X], [O, O, Blank], [Blank, Blank, Blank]] ∧
      checkWin [[X, X, X], [O, O, Blank], [Blank, Blank, Blank]] = some X :=
  scenario_win_over_block 9 (le_refl 9)

/-- C16 (as stated, refuted): from the board of the grid `O O _ / X X _ / _ _ _`,
`nextMove` with player `O` does not place `O` at row 1, column 2: that cell is still
`Blank` afterwards, `O` stands at row 0, column 2, and `checkWin` of the resulting board is
`O`, not `Blank`. -/
theorem scenario_block_refuted :
    toBoard [["O", "O", "_"], ["X", "X", "_"], ["_", "_", "_"]]
        = some [[O, O, Blank], [X, X, Blank], [Blank, Blank, Blank]] ∧
      ∃ b', nextMove 9 [[O, O, Blank], [X, X, Blank], [Blank, Blank, Blank]] O = some b' ∧
        index b' 1 2 = some Blank ∧ index b' 0 2 = some O ∧ checkWin b' = some O ∧
        checkWin b' ≠ some Blank := by
  refine ⟨by decide, [[O, O, O], [X, X, Blank], [Blank, Blank, Blank]], ?_, by decide,
    by decide, by decide, by decide⟩
  have h := nextMove_first_blank_win 9 [[O, O, Blank], [X, X, Blank], [Blank, Blank, Blank]]
    O (0, 2) [(1, 2), (2, 0), (2, 1), (2, 2)]
    (by decide) (by decide) (by decide) (by decide) (Or.inr rfl) (le_refl 9) (by decide)
    (by decide)
  rw [h]
  decide

/-- C16 (amended): from the board of the grid `O O _ / X X _ / _ _ _`, `nextMove` with
player `O` and fuel at least 9 places `O` at row 0, column 2, completing its own row and
winning at once; no other cell changes, and on the resulting board `checkWin` is `O` and
`checkFull` is false. -/
theorem scenario_own_row_win (fuel : Nat) (hfuel : 9 ≤ fuel) :
    toBoard [["O", "O", "_"], ["X", "X", "_"], ["_", "_", "_"]]
        = some [[O, O, Blank], [X, X, Blank], [Blank, Blank, Blank]] ∧
      nextMove fuel [[O, O, Blank], [X, X, Blank], [Blank, Blank, Blank]] O
        = some [[O, O, O], [X, X, Blank], [Blank, Blank, Blank]] ∧
      assign [[O, O, Blank], [X, X, Blank], [Blank, Blank, Blank]] 0 2 O
        = some [[O, O, O], [X, X, Blank], [Blank, Blank, Blank]] ∧
      checkWin [[O, O, O], [X, X, Blank], [Blank, Blank, Blank]] = some O ∧
      checkFull [[O, O, O], [X, X, Blank], [Blank, Blank, Blank]] = some false := by
  refine ⟨by decide, ?_, by decide, by decide, by decide⟩
  have h := nextMove_first_blank_win fuel [[O, O, Blank], [X, X, Blank], [Blank, Blank, Blank]]
    O (0, 2) [(1, 2), (2, 0), (2, 1), (2, 2)]
    (by decide) (by decide) (by decide) (by decide) (Or.inr rfl) hfuel (by decide) (by decide)
  rw [h]
  decide

theorem scenario_own_row_win_witness :
    toBoard [["O", "O", "_"], ["X", "X", "_"], ["_", "_", "_"]]
        = some [[O, O, Blank], [X, X, Blank], [Blank, Blank, Blank]] ∧
      nextMove 9 [[O, O, Blank], [X, X, Blank], [Blank, Blank, Blank]] O
        = some [[O, O, O], [X, X, Blank], [Blank, Blank, Blank]] ∧
      assign [[O, O, Blank], [X, X, Blank], [Blank, Blank, Blank]] 0 2 O
        = some [[O, O, O], [X, X, Blank], [Blank, Blank, Blank]] ∧
      checkWin [[O, O, O], [X, X, Blank], [Blank, Blank, Blank]] = some O ∧
      checkFull [[O, O, O], [X, X, Blank], [Blank, Blank, Blank]] = some false :=
  scenario_own_row_win 9 (le_refl 9)

/-- C19 (as stated, refuted): on the board `X X _ / X _ O / O O _`, which has no winner
and is not full, player `O` can win at once at row 2, column 2; yet `nextMove` with player
`O` places `O` at row 0, column 2, and `checkWin` of the resulting board is `Blank`. -/
theorem immediate_win_not_taken :
    Is3x3 [[X, X, Blank], [X, Blank, O], [O, O, Blank]] ∧
      OverMarks [[X, X, Blank], [X, Blank, O], [O, O, Blank]] ∧
      checkWin [[X, X, Blank], [X, Blank, O], [O, O, Blank]] = some Blank ∧
      checkFull [[X, X, Blank], [X, Blank, O], [O, O, Blank]] = some false ∧
      index [[X, X, Blank], [X, Blank, O], [O, O, Blank]] 2 2 = some Blank ∧
      assign [[X, X, Blank], [X, Blank, O], [O, O, Blank]] 2 2 O
        = some [[X, X, Blank], [X, Blank, O], [O, O, O]] ∧
      checkWin [[X, X, Blank], [X, Blank, O], [O, O, O]] = some O ∧
      nextMove 9 [[X, X, Blank], [X, Blank, O], [O, O, Blank]] O
        = some [[X, X, O], [X, Blank, O], [O, O, Blank]] ∧
      checkWin [[X, X, O], [X, Blank, O], [O, O, Blank]] = some Blank := by
  decide

/-- C19 (amended): a position won at once is played as won. On a 3 by 3 board `b` over `X`,
`Blank`, `O` with no winner that is not full, for a player `p` that is `X` or `O`, if `p`
wins at once at some `Blank` cell `(i, j)`, then `nextMove` leaves a board `b'` whose
minimax score is `p`, the best score for `p` (a forced win, not necessarily an immediate
one); and `checkWin b'` is `p` whenever no `Blank` cell scanned before `(i, j)` in row-major
order already has the score `p`. -/
theorem nextMove_plays_won (fuel : Nat) (b : Board) (p : BoardSpace) (i j : Nat)
    (bij : Board) (hb : Is3x3 b) (hm : OverMarks b) (hw : checkWin b = some Blank)
    (hf : checkFull b = some false) (hp : p = X ∨ p = O) (hfuel : 9 ≤ fuel)
    (hij : index b i j = some Blank) (hbij : assign b i j p = some bij)
    (hwin : checkWin bij = some p) :
    ∃ b', nextMove fuel b p = some b' ∧
      (minimax fuel b' (p == X)).map Prod.snd = some p ∧
      ((∀ r c brc, index b r c = some Blank → scannedBefore (r, c) (i, j) →
          assign b r c p = some brc → (minimax fuel brc (p == X)).map Prod.snd ≠ some p) →
        checkWin b' = some p) := by
  have hc := index_blank_mem hb hij
  rw [assign_eq_place hbij] at hwin
  obtain ⟨d, hd, hnm, hVd, hdc⟩ := nextMove_win hb hm hw hf hp hfuel hc hwin
  have hpb : p ≠ Blank := by rcases hp with h | h <;> rw [h] <;> decide
  have hpm : p = X ∨ p = Blank ∨ p = O := by
    rcases hp with h | h
    · exact Or.inl h
    · exact Or.inr (Or.inr h)
  have hn := numBlank_le b
  have hmm : ∀ y ∈ blankCells b, ∀ m,
      minimax fuel (place b y p) m = some (place b y p, V (place b y p) m) := by
    intro y hy m
    have hy' := (mem_blankCells.1 hy).2
    apply minimax_eq_V _ _ _ (place_is3x3 hb hy' p) (place_overMarks hm hy' hpm)
    have := numBlank_place_lt hy hpb
    omega
  refine ⟨_, hnm, by rw [hmm d hd, Option.map_some', hVd], ?_⟩
  intro hbefore
  have : d = (i, j) := by
    apply hdc
    intro y hy hs hV
    have hy' := (mem_blankCells.1 hy).2
    apply hbefore y.1 y.2 (place b y p) hy' hs (place_of_blank hy' p)
    rw [hmm y hy, Option.map_some', hV]
  rw [this]
  exact hwin

theorem nextMove_plays_won_witness :
    ∃ b', nextMove 9 [[-1, -1, 0], [-1, 0, 1], [1, 1, 0]] O = some b' ∧
      (minimax 9 b' (O == X)).map Prod.snd = some O ∧
      ((∀ r c brc, index [[-1, -1, 0], [-1, 0, 1], [1, 1, 0]] r c = some Blank →
          scannedBefore (r, c) (2, 2) →
          assign [[-1, -1, 0], [-1, 0, 1], [1, 1, 0]] r c O = some brc →
          (minimax 9 brc (O == X)).map Prod.snd ≠ some O) →
        checkWin b' = some O) :=
  nextMove_plays_won 9 [[-1, -1, 0], [-1, 0, 1], [1, 1, 0]] O 2 2
    [[-1, -1, 0], [-1, 0, 1], [1, 1, 1]] (by decide) (by decide) (by decide) (by decide)
    (Or.inr rfl) (le_refl 9) (by decide) (by decide) (by decide)

/-- C20: colour symmetry of the evaluation. On a 3 by 3 board `b` over `X`, `Blank`, `O`,
for both values of the flag `m` and with fuel above the number of `Blank` cells, `minimax`
returns a score `s` on `b` with flag `m`, and returns `-s` on the colour-exchanged board
`swap b` with the opposite flag. -/
theorem minimax_swap (fuel : Nat) (b : Board) (m : Bool) (hb : Is3x3 b) (hm : OverMarks b)
    (hfuel : numBlank b < fuel) :
    ∃ s, (minimax fuel b m).map Prod.snd = some s ∧
      (minimax fuel (swap b) (!m)).map Prod.snd = some (-s) := by
  refine ⟨V b m, by rw [minimax_eq_V fuel b m hb hm hfuel]; rfl, ?_⟩
  have hn : numBlank (swap b) < fuel := by
    unfold numBlank; rw [blankCells_swap]; exact hfuel
  rw [minimax_eq_V fuel (swap b) (!m) (swap_is3x3 hb) (swap_overMarks hm) hn,
    Option.map_some', V_swap _ b m (le_refl _) hb hm]

theorem minimax_swap_witness :
    ∃ s, (minimax 3 [[-1, 1, -1], [1, 1, -1], [0, -1, 0]] true).map Prod.snd = some s ∧
      (minimax 3 (swap [[-1, 1, -1], [1, 1, -1], [0, -1, 0]]) (!true)).map Prod.snd
        = some (-s) :=
  minimax_swap 3 [[-1, 1, -1], [1, 1, -1], [0, -1, 0]] true (by decide) (by decide)
    (by decide)

/-- C17: the scenario "opening move". From the all-`Blank` 3 by 3 board, `nextMove` with
player `O` and fuel at least 9 places `O` on a corner or on the centre (it is the corner
at row 0, column 0); the resulting board has exactly one cell that is not `Blank`,
`checkWin` of it is `Blank` and `checkFull` is false. -/
theorem scenario_opening (fuel : Nat) (hfuel : 9 ≤ fuel) :
    ∃ b' r c,
      nextMove fuel [[Blank, Blank, Blank], [Blank, Blank, Blank], [Blank, Blank, Blank]] O
        = some b' ∧
      ((r, c) = (0, 0) ∨ (r, c) = (0, 2) ∨ (r, c) = (2, 0) ∨ (r, c) = (2, 2) ∨
        (r, c) = (1, 1)) ∧
      index b' r c = some O ∧
      (∀ i < 3, ∀ j < 3, (i ≠ r ∨ j ≠ c) → index b' i j = some Blank) ∧
      checkWin b' = some Blank ∧ checkFull b' = some false :=
  ⟨[[O, Blank, Blank], [Blank, Blank, Blank], [Blank, Blank, Blank]], 0, 0,
    nextMove_opening fuel hfuel, Or.inl rfl, by decide, by decide, by decide, by decide⟩

theorem scenario_opening_witness :
    ∃ b' r c,
      nextMove 9 [[Blank, Blank, Blank], [Blank, Blank, Blank], [Blank, Blank, Blank]] O
        = some b' ∧
      ((r, c) = (0, 0) ∨ (r, c) = (0, 2) ∨ (r, c) = (2, 0) ∨ (r, c) = (2, 2) ∨
        (r, c) = (1, 1)) ∧
      index b' r c = some O ∧
      (∀ i < 3, ∀ j < 3, (i ≠ r ∨ j ≠ c) → index b' i j = some Blank) ∧
      checkWin b' = some Blank ∧ checkFull b' = some false :=
  scenario_opening 9 (le_refl 9)

end TicTacGo
